import Mathlib

/-!
# Verification of the `soundly` multi-track audio engine core

Shallow embedding of the Rust sources (`src/audio_engine.rs`, `src/playback.rs`,
`src/flac.rs`) and proofs about the specification's claims.

Modelling conventions:
* `f32`/`f64` sample values and times are modelled by `ℚ` with exact arithmetic.
  Every concrete counterexample below uses inputs whose float computation is
  exact (small dyadic rationals), so the rational model agrees with the float
  code on them.
* Rust's `as i16` cast of an in-range float truncates toward zero; it is
  modelled by `truncQ`.  Rust's `as usize` cast of a nonnegative float
  truncates toward zero and saturates below at 0; it is modelled by `qToUsize`.
* Machine integers are modelled by `ℕ`/`ℤ` with explicit `% 2^w` where the code
  can overflow (MD5, CRC).  `>>`, `<<`, `&`, `|`, `^` become `>>>`, `<<<`,
  `&&&`, `|||`, `^^^` on `ℕ`.
* Rust `Vec` becomes `List`; in-place mutation becomes explicit state passing.
-/

namespace Soundly

/-! ## Rational-number helpers for the float semantics -/

/-- Truncation toward zero, the semantics of Rust's in-range float→int cast. -/
def truncQ (x : ℚ) : ℤ := if 0 ≤ x then ⌊x⌋ else ⌈x⌉

/-- Rust `f32::clamp`/`f64::clamp` on rationals. -/
def clampQ (x lo hi : ℚ) : ℚ := max lo (min x hi)

/-- Rust's `as usize` on a float: truncate toward zero, saturate at 0 below. -/
def qToUsize (x : ℚ) : ℕ := (⌊x⌋).toNat

/-! ## Sample conversion (float32 → int16)

`src/flac.rs` line 1208: `(s * 32767.0).clamp(-32768.0, 32767.0) as i16`.
`src/audio_engine.rs` line 953 (WAV) and 1011 (MP3):
`(sample.clamp(-1.0, 1.0) * i16::MAX as f32) as i16`. -/

/-- FLAC pre-processing conversion from `encode_flac_with_level`
    (`src/flac.rs:1208`). -/
def flacF32ToI16 (s : ℚ) : ℤ := truncQ (clampQ (s * 32767) (-32768) 32767)

/-- WAV export conversion from `export_wav` (`src/audio_engine.rs:953`). -/
def wavF32ToI16 (s : ℚ) : ℤ := truncQ (clampQ s (-1) 1 * 32767)

/-- The spec's conversion, following its words:
    `round(clamp(x, -1, +1) × 32767)` (rounding to the nearest integer). -/
def specRoundToI16 (s : ℚ) : ℤ := round (clampQ s (-1) 1 * 32767)

/-- The amended conversion: truncation toward zero instead of rounding. -/
def specTruncToI16 (s : ℚ) : ℤ := truncQ (clampQ s (-1) 1 * 32767)

/-! ## Track store (`src/audio_engine.rs`)

`AudioTrack` carries an interleaved f32 buffer, sample rate and channel count.
The display `name` field takes no part in any claim and is omitted. -/

structure AudioTrack where
  audioData : List ℚ
  sampleRate : ℕ
  channels : ℕ
deriving Repr, DecidableEq

/-- `AudioEngine::get_sample_rate`: first track's rate, default 44100. -/
def getSampleRate (tracks : List AudioTrack) : ℕ :=
  (tracks.head?.map AudioTrack.sampleRate).getD 44100

/-- `AudioEngine::get_channels`: maximum channel count, default 2. -/
def getChannels (tracks : List AudioTrack) : ℕ :=
  ((tracks.map AudioTrack.channels).max?).getD 2

/-- Duration of one track: `(len / channels) as f64 / sample_rate as f64`,
    and `0.0` for an empty buffer (`src/audio_engine.rs:207-220`). -/
def trackDuration (t : AudioTrack) : ℚ :=
  if t.audioData = [] then 0
  else ((t.audioData.length / t.channels : ℕ) : ℚ) / (t.sampleRate : ℚ)

/-- `AudioEngine::get_duration`: fold of `f64::max` over track durations,
    starting from `0.0`. -/
def getDuration (tracks : List AudioTrack) : ℚ :=
  (tracks.map trackDuration).foldl max 0

/-! ## Region deletion (`src/audio_engine.rs:823-849`) -/

/-- Delete `[start_sample, end_sample)` from one track, as the body of the
    `delete_region` loop does for an in-range index on a completed call.
    This total function gives the buffer produced by a successful drain;
    the `Vec::drain` panic precondition (the range `start_sample..end_sample`
    is inverted) is tracked separately by `deleteRegionTrackP` below, and a
    panicking drain leaves the buffer untouched. -/
def deleteRegionTrack (t : AudioTrack) (startTime endTime : ℚ) : AudioTrack :=
  let startFrame := qToUsize (startTime * (t.sampleRate : ℚ))
  let endFrame := qToUsize (endTime * (t.sampleRate : ℚ))
  let startSample := startFrame * t.channels
  let endSample := endFrame * t.channels
  if t.audioData.length ≤ startSample then t
  else
    let endSample2 := min endSample t.audioData.length
    { t with audioData :=
        t.audioData.take startSample ++ t.audioData.drop endSample2 }

/-- One pass of the `delete_region` loop: skip an out-of-range index
    (`continue`), else edit that track in place. -/
def deleteRegionStep (startTime endTime : ℚ) (ts : List AudioTrack)
    (idx : ℕ) : List AudioTrack :=
  if h : idx < ts.length then
    ts.set idx (deleteRegionTrack (ts.get ⟨idx, h⟩) startTime endTime)
  else ts

/-- `AudioEngine::delete_region`: for each listed index, skip it if it is out
    of range or if `start_sample ≥ len(buffer)`, else drain the sample range.
    The function always returns `Ok(())`; we return the updated track list
    inside `Except.ok`, mirroring `Result<(), String>`. -/
def deleteRegion (tracks : List AudioTrack) (startTime endTime : ℚ)
    (trackIndices : List ℕ) : Except String (List AudioTrack) :=
  Except.ok (trackIndices.foldl (deleteRegionStep startTime endTime) tracks)

/-- The loop body with the `Vec::drain` precondition made explicit:
    `drain(start_sample..end_sample.min(len))` panics when the range is
    inverted, i.e. when `end_sample.min(len) < start_sample` (reachable with
    `end_time < start_time`, since the branch is only entered when
    `start_sample < len`).  `none` models the panic. -/
def deleteRegionTrackP (t : AudioTrack) (startTime endTime : ℚ) :
    Option AudioTrack :=
  let startFrame := qToUsize (startTime * (t.sampleRate : ℚ))
  let endFrame := qToUsize (endTime * (t.sampleRate : ℚ))
  let startSample := startFrame * t.channels
  let endSample := endFrame * t.channels
  if t.audioData.length ≤ startSample then some t
  else if min endSample t.audioData.length < startSample then none
  else some { t with audioData :=
      t.audioData.take startSample ++
        t.audioData.drop (min endSample t.audioData.length) }

/-- One pass of the `delete_region` loop in the panic-aware model: a panic
    (`none`) aborts the remaining iterations. -/
def deleteRegionStepP (startTime endTime : ℚ)
    (s : Option (List AudioTrack)) (idx : ℕ) : Option (List AudioTrack) :=
  match s with
  | none => none
  | some ts =>
      if h : idx < ts.length then
        (deleteRegionTrackP (ts.get ⟨idx, h⟩) startTime endTime).map
          (fun tr => ts.set idx tr)
      else some ts

/-- `AudioEngine::delete_region` in the panic-aware model: `none` when some
    drain panics, otherwise `some (Except.ok ts)` — on every completed path
    the function returns `Ok(())`, so no error value is ever produced. -/
def deleteRegionP (tracks : List AudioTrack) (startTime endTime : ℚ)
    (trackIndices : List ℕ) : Option (Except String (List AudioTrack)) :=
  (trackIndices.foldl (deleteRegionStepP startTime endTime)
    (some tracks)).map Except.ok

/-! ## Decoding / `append_audio_buffer` (`src/audio_engine.rs:153-192`) -/

/-- Sample formats delivered by the external decode collaborator. -/
inductive BufFormat
  | f32
  | s32
  | s16
  | other
deriving Repr, DecidableEq

/-- One decoded PCM buffer: its own channel count, frame count and planar
    sample data (`data ch frame`). -/
structure DecodedBuffer where
  fmt : BufFormat
  bufChannels : ℕ
  frames : ℕ
  data : ℕ → ℕ → ℚ

/-- Sample conversion applied per format (`i32::MAX = 2147483647`,
    `i16::MAX = 32767`); `other` buffers are silently skipped. -/
def convertSample (fmt : BufFormat) (x : ℚ) : ℚ :=
  match fmt with
  | BufFormat.f32 => x
  | BufFormat.s32 => x / 2147483647
  | BufFormat.s16 => x / 32767
  | BufFormat.other => x

/-- `AudioEngine::append_audio_buffer`: for each frame, push
    `min(channels, buf_channels)` converted samples; unknown formats push
    nothing. -/
def appendAudioBuffer (audioData : List ℚ) (buf : DecodedBuffer)
    (channels : ℕ) : List ℚ :=
  match buf.fmt with
  | BufFormat.other => audioData
  | _ =>
      audioData ++ ((List.range buf.frames).flatMap (fun frame =>
        (List.range (min channels buf.bufChannels)).map (fun ch =>
          convertSample buf.fmt (buf.data ch frame))))

/-- The decode loop of `load_file`: fold `append_audio_buffer` over the
    successfully decoded buffers, starting from the empty vector. -/
def loadFileBuffer (bufs : List DecodedBuffer) (channels : ℕ) : List ℚ :=
  bufs.foldl (fun acc b => appendAudioBuffer acc b channels) []

/-! ## Waveform summarizer (`src/audio_engine.rs:304-455`) -/

/-- One zoomed-in tuple for a frame (`samples_per_pixel < 1.0` branch). -/
def zoomedTuple (t : AudioTrack) (frame : ℕ) : ℚ × ℚ × ℚ × ℚ :=
  if t.channels = 2 then
    let idx := frame * 2
    if idx + 1 < t.audioData.length then
      (0, t.audioData.getD idx 0, 0, t.audioData.getD (idx + 1) 0)
    else (0, 0, 0, 0)
  else if t.channels = 1 then
    if frame < t.audioData.length then
      (0, t.audioData.getD frame 0, 0, t.audioData.getD frame 0)
    else (0, 0, 0, 0)
  else
    let idx := frame * t.channels
    if idx < t.audioData.length then
      (0, t.audioData.getD idx 0, 0, t.audioData.getD idx 0)
    else (0, 0, 0, 0)

/-- Per-channel min/max over a pixel's frame range, initialized to `0.0`
    (normal mode). -/
def pixelTuple (t : AudioTrack) (pixelStart pixelEnd : ℕ) : ℚ × ℚ × ℚ × ℚ :=
  if t.channels = 2 then
    (List.range (pixelEnd - pixelStart)).foldl (fun acc k =>
      let frame := pixelStart + k
      let idx := frame * 2
      if idx + 1 < t.audioData.length then
        let l := t.audioData.getD idx 0
        let r := t.audioData.getD (idx + 1) 0
        (min acc.1 l, max acc.2.1 l, min acc.2.2.1 r, max acc.2.2.2 r)
      else acc) (0, 0, 0, 0)
  else
    let chIdx : ℕ → ℕ := fun frame =>
      if t.channels = 1 then frame else frame * t.channels
    let mm := (List.range (pixelEnd - pixelStart)).foldl (fun acc k =>
      let frame := pixelStart + k
      if chIdx frame < t.audioData.length then
        let s := t.audioData.getD (chIdx frame) 0
        (min acc.1 s, max acc.2 s)
      else acc) ((0 : ℚ), (0 : ℚ))
    (mm.1, mm.2, mm.1, mm.2)

/-- `AudioEngine::get_track_waveform`. -/
def getTrackWaveform (t : AudioTrack) (startTime endTime : ℚ)
    (numPixels : ℕ) : List (ℚ × ℚ × ℚ × ℚ) :=
  if t.audioData = [] ∨ numPixels = 0 then
    List.replicate numPixels (0, 0, 0, 0)
  else
    let frameCap := t.audioData.length / t.channels
    let startFrame := min (qToUsize (startTime * (t.sampleRate : ℚ))) frameCap
    let endFrame := min (qToUsize (endTime * (t.sampleRate : ℚ))) frameCap
    if endFrame ≤ startFrame then
      List.replicate numPixels (0, 0, 0, 0)
    else
      let frameCount := endFrame - startFrame
      let samplesPerPixel : ℚ := (frameCount : ℚ) / (numPixels : ℚ)
      if samplesPerPixel < 1 then
        (List.range frameCount).map (fun k => zoomedTuple t (startFrame + k))
      else
        (List.range numPixels).map (fun i =>
          let pixelStart := startFrame + qToUsize ((i : ℚ) * samplesPerPixel)
          let pixelEnd :=
            min (startFrame + qToUsize (((i : ℚ) + 1) * samplesPerPixel))
              endFrame
          if pixelEnd ≤ pixelStart then (0, 0, 0, 0)
          else pixelTuple t pixelStart pixelEnd)

/-! ## Mono-pair-to-stereo export mix (`src/audio_engine.rs:623-661`)

The `"mono_to_stereo"` arm of `mix_tracks_for_export`. -/

/-- One frame of the mono-pair loop: conditionally assign the left and right
    samples at interleaved positions `2·frame` and `2·frame + 1`
    (`left_start`/`right_start` are loop-invariant, so they are recomputed
    here). -/
def writePairFrame (startTime : ℚ) (leftTrack rightTrack : AudioTrack)
    (b : List ℚ) (frameIdx : ℕ) : List ℚ :=
  let leftStart := qToUsize (startTime * (leftTrack.sampleRate : ℚ))
  let rightStart := qToUsize (startTime * (rightTrack.sampleRate : ℚ))
  let outputIdx := frameIdx * 2
  let b1 := if leftStart + frameIdx < leftTrack.audioData.length then
      b.set outputIdx (leftTrack.audioData.getD (leftStart + frameIdx) 0)
    else b
  if rightStart + frameIdx < rightTrack.audioData.length then
    b1.set (outputIdx + 1) (rightTrack.audioData.getD (rightStart + frameIdx) 0)
  else b1

/-- Write one pair of mono tracks into the interleaved stereo buffer:
    the body of the `pair_idx` loop. -/
def writePair (totalFrames : ℕ) (startTime : ℚ)
    (leftTrack rightTrack : AudioTrack) (buf : List ℚ) : List ℚ :=
  (List.range totalFrames).foldl (writePairFrame startTime leftTrack rightTrack)
    buf

/-- The paired mono tracks, in insertion order: the `step_by(2)` loop visits
    pairs `(0,1), (2,3), …` of the mono-filtered list and breaks at an
    unpaired trailing track. -/
def monoPairs (tracks : List AudioTrack) : List (AudioTrack × AudioTrack) :=
  let ms := tracks.filter (fun t => t.channels = 1)
  (List.range (ms.length / 2)).map (fun p =>
    (ms.getD (2 * p) ⟨[], 0, 0⟩, ms.getD (2 * p + 1) ⟨[], 0, 0⟩))

/-- Process all pairs in order over the zero-initialized stereo buffer. -/
def mixPairs (totalFrames : ℕ) (startTime : ℚ)
    (pairs : List (AudioTrack × AudioTrack)) : List ℚ :=
  pairs.foldl (fun b pr => writePair totalFrames startTime pr.1 pr.2 b)
    (List.replicate (totalFrames * 2) 0)

/-- The `"mono_to_stereo"` arm of `mix_tracks_for_export`: result
    `(data, rate, channels)` (the suffix string is always empty). -/
def mixTracksForExportMonoToStereo (tracks : List AudioTrack)
    (startTime endTime : ℚ) : List ℚ × ℕ × ℕ :=
  match tracks with
  | [] => ([], 44100, 2)
  | t0 :: _ =>
      let sampleRate := t0.sampleRate
      let startFrame := qToUsize (startTime * (sampleRate : ℚ))
      let endFrame := qToUsize (endTime * (sampleRate : ℚ))
      let totalFrames := endFrame - startFrame
      if totalFrames = 0 then ([], sampleRate, 2)
      else (mixPairs totalFrames startTime (monoPairs tracks), sampleRate, 2)

/-! ## Playback state machine (`src/playback.rs`) -/

/-- The shared playback state guarded by the mutex. -/
structure PlaybackState where
  buffer : List ℚ
  position : ℕ
  isPlaying : Bool
  isPaused : Bool
  startTimeOffset : ℚ
deriving Repr

/-- Initial state created in `AudioPlayback::new`. -/
def initPlayback : PlaybackState :=
  { buffer := [], position := 0, isPlaying := false, isPaused := false,
    startTimeOffset := 0 }

/-- `AudioPlayback::play`. -/
def playOp (_s : PlaybackState) (buf : List ℚ) (offset : ℚ) : PlaybackState :=
  { buffer := buf, position := 0, isPlaying := true, isPaused := false,
    startTimeOffset := offset }

/-- `AudioPlayback::pause`. -/
def pauseOp (s : PlaybackState) : PlaybackState :=
  if s.isPlaying then { s with isPlaying := false, isPaused := true } else s

/-- `AudioPlayback::resume`. -/
def resumeOp (s : PlaybackState) : PlaybackState :=
  if s.isPaused ∧ s.buffer ≠ [] then
    { s with isPlaying := true, isPaused := false }
  else s

/-- `AudioPlayback::stop`. -/
def stopOp (s : PlaybackState) : PlaybackState :=
  { s with
      isPlaying := false
      isPaused := false
      position := 0
      startTimeOffset := 0 }

/-- `AudioPlayback::set_position` (sample position clamped to buffer length). -/
def setPositionOp (s : PlaybackState) (pos : ℚ) (sampleRate channels : ℕ) :
    PlaybackState :=
  let samplePosition := qToUsize (pos * (sampleRate : ℚ)) * channels
  { s with position := min samplePosition s.buffer.length }

/-- One slot of the device callback: read a sample or write silence, flipping
    `is_playing` off at the end of the buffer. -/
def callbackSlot (s : PlaybackState) : PlaybackState :=
  if s.isPlaying ∧ s.position < s.buffer.length then
    { s with position := s.position + 1 }
  else if s.buffer.length ≤ s.position then
    { s with isPlaying := false }
  else s

/-- A callback pull for a block of `n` output samples. -/
def callbackOp (s : PlaybackState) (n : ℕ) : PlaybackState :=
  (List.range n).foldl (fun st _ => callbackSlot st) s

/-- Any transport call or callback pull on the playback object. -/
inductive TransportOp
  | play (buf : List ℚ) (offset : ℚ)
  | pause
  | resume
  | stop
  | setPosition (pos : ℚ) (sampleRate channels : ℕ)
  | callback (n : ℕ)

/-- Apply one operation. -/
def applyOp (s : PlaybackState) : TransportOp → PlaybackState
  | TransportOp.play buf offset => playOp s buf offset
  | TransportOp.pause => pauseOp s
  | TransportOp.resume => resumeOp s
  | TransportOp.stop => stopOp s
  | TransportOp.setPosition pos rate ch => setPositionOp s pos rate ch
  | TransportOp.callback n => callbackOp s n

/-- Apply a sequence of operations starting from the initial state. -/
def applyOps (ops : List TransportOp) : PlaybackState :=
  ops.foldl applyOp initPlayback

/-! ## FLAC encoder (`src/flac.rs`)

Machine words are `ℕ` with explicit `% 2^w`; `u8`/`u16`/`u32`/`u64` values are
kept below their modulus by construction at every call site. -/

/-- One shift step of the CRC-8 table generator (u8 arithmetic,
    polynomial 0x07). -/
def crc8Step (crc : ℕ) : ℕ :=
  if crc.testBit 7 then ((crc <<< 1) ^^^ 0x07) % 256 else (crc <<< 1) % 256

/-- `build_crc8_table` entry for index `i` (eight shift steps). -/
def crc8TableEntry (i : ℕ) : ℕ := crc8Step^[8] (i % 256)

/-- `crc8`: table-driven CRC-8 over a byte run. -/
def crc8 (data : List ℕ) : ℕ :=
  data.foldl (fun crc b => crc8TableEntry ((crc ^^^ b % 256) % 256)) 0

/-- One shift step of `crc16_table` (u16 arithmetic, polynomial 0x8005). -/
def crc16Step (crc : ℕ) : ℕ :=
  if crc.testBit 15 then ((crc <<< 1) ^^^ 0x8005) % 65536
  else (crc <<< 1) % 65536

/-- `crc16_table`: entry for byte `val`. -/
def crc16Entry (val : ℕ) : ℕ := crc16Step^[8] ((val % 256) <<< 8)

/-- `crc16` over a byte run. -/
def crc16 (data : List ℕ) : ℕ :=
  data.foldl (fun crc b =>
    ((crc <<< 8) ^^^ crc16Entry (((crc >>> 8) ^^^ b % 256) % 256)) % 65536) 0

/-! ### MD5 (`MD5Context`, RFC 1321 as implemented in `src/flac.rs:109-402`) -/

/-- Bitwise NOT on a u32 value. -/
def not32 (x : ℕ) : ℕ := x ^^^ 0xFFFFFFFF

/-- `u32::rotate_left`. -/
def rotl32 (x s : ℕ) : ℕ := ((x <<< s) ||| (x >>> (32 - s))) % 2 ^ 32

/-- Round function F: `(b & c) | (!b & d)`. -/
def md5F (b c d : ℕ) : ℕ := (b &&& c) ||| (not32 b &&& d)

/-- Round function G: `(b & d) | (c & !d)`. -/
def md5G (b c d : ℕ) : ℕ := (b &&& d) ||| (c &&& not32 d)

/-- Round function H: `b ^ c ^ d`. -/
def md5H (b c d : ℕ) : ℕ := b ^^^ c ^^^ d

/-- Round function I: `c ^ (b | !d)`. -/
def md5I (b c d : ℕ) : ℕ := c ^^^ (b ||| not32 d)

/-- One MD5 step: the body of the `ff`/`gg`/`hh`/`ii` macros with the round
    function abstracted (`wrapping_add` = `% 2^32`). -/
def md5OpStep (f : ℕ → ℕ → ℕ → ℕ) (a b c d x s ac : ℕ) : ℕ :=
  (rotl32 ((a + f b c d + x + ac) % 2 ^ 32) s + b) % 2 ^ 32

/-- Decode 64 little-endian bytes into word `i` of the message block. -/
def md5Word (block : List ℕ) (i : ℕ) : ℕ :=
  block.getD (i * 4) 0 + block.getD (i * 4 + 1) 0 * 256 +
    block.getD (i * 4 + 2) 0 * 65536 + block.getD (i * 4 + 3) 0 * 16777216

/-- `MD5Context::transform`: the 64 MD5 steps on one 64-byte block. -/
def md5Transform (st : ℕ × ℕ × ℕ × ℕ) (block : List ℕ) : ℕ × ℕ × ℕ × ℕ :=
  let x := md5Word block
  let a := st.1
  let b := st.2.1
  let c := st.2.2.1
  let d := st.2.2.2
  -- Round 1
  let a := md5OpStep md5F a b c d (x 0) 7 0xD76AA478
  let d := md5OpStep md5F d a b c (x 1) 12 0xE8C7B756
  let c := md5OpStep md5F c d a b (x 2) 17 0x242070DB
  let b := md5OpStep md5F b c d a (x 3) 22 0xC1BDCEEE
  let a := md5OpStep md5F a b c d (x 4) 7 0xF57C0FAF
  let d := md5OpStep md5F d a b c (x 5) 12 0x4787C62A
  let c := md5OpStep md5F c d a b (x 6) 17 0xA8304613
  let b := md5OpStep md5F b c d a (x 7) 22 0xFD469501
  let a := md5OpStep md5F a b c d (x 8) 7 0x698098D8
  let d := md5OpStep md5F d a b c (x 9) 12 0x8B44F7AF
  let c := md5OpStep md5F c d a b (x 10) 17 0xFFFF5BB1
  let b := md5OpStep md5F b c d a (x 11) 22 0x895CD7BE
  let a := md5OpStep md5F a b c d (x 12) 7 0x6B901122
  let d := md5OpStep md5F d a b c (x 13) 12 0xFD987193
  let c := md5OpStep md5F c d a b (x 14) 17 0xA679438E
  let b := md5OpStep md5F b c d a (x 15) 22 0x49B40821
  -- Round 2
  let a := md5OpStep md5G a b c d (x 1) 5 0xF61E2562
  let d := md5OpStep md5G d a b c (x 6) 9 0xC040B340
  let c := md5OpStep md5G c d a b (x 11) 14 0x265E5A51
  let b := md5OpStep md5G b c d a (x 0) 20 0xE9B6C7AA
  let a := md5OpStep md5G a b c d (x 5) 5 0xD62F105D
  let d := md5OpStep md5G d a b c (x 10) 9 0x02441453
  let c := md5OpStep md5G c d a b (x 15) 14 0xD8A1E681
  let b := md5OpStep md5G b c d a (x 4) 20 0xE7D3FBC8
  let a := md5OpStep md5G a b c d (x 9) 5 0x21E1CDE6
  let d := md5OpStep md5G d a b c (x 14) 9 0xC33707D6
  let c := md5OpStep md5G c d a b (x 3) 14 0xF4D50D87
  let b := md5OpStep md5G b c d a (x 8) 20 0x455A14ED
  let a := md5OpStep md5G a b c d (x 13) 5 0xA9E3E905
  let d := md5OpStep md5G d a b c (x 2) 9 0xFCEFA3F8
  let c := md5OpStep md5G c d a b (x 7) 14 0x676F02D9
  let b := md5OpStep md5G b c d a (x 12) 20 0x8D2A4C8A
  -- Round 3
  let a := md5OpStep md5H a b c d (x 5) 4 0xFFFA3942
  let d := md5OpStep md5H d a b c (x 8) 11 0x8771F681
  let c := md5OpStep md5H c d a b (x 11) 16 0x6D9D6122
  let b := md5OpStep md5H b c d a (x 14) 23 0xFDE5380C
  let a := md5OpStep md5H a b c d (x 1) 4 0xA4BEEA44
  let d := md5OpStep md5H d a b c (x 4) 11 0x4BDECFA9
  let c := md5OpStep md5H c d a b (x 7) 16 0xF6BB4B60
  let b := md5OpStep md5H b c d a (x 10) 23 0xBEBFBC70
  let a := md5OpStep md5H a b c d (x 13) 4 0x289B7EC6
  let d := md5OpStep md5H d a b c (x 0) 11 0xEAA127FA
  let c := md5OpStep md5H c d a b (x 3) 16 0xD4EF3085
  let b := md5OpStep md5H b c d a (x 6) 23 0x04881D05
  let a := md5OpStep md5H a b c d (x 9) 4 0xD9D4D039
  let d := md5OpStep md5H d a b c (x 12) 11 0xE6DB99E5
  let c := md5OpStep md5H c d a b (x 15) 16 0x1FA27CF8
  let b := md5OpStep md5H b c d a (x 2) 23 0xC4AC5665
  -- Round 4
  let a := md5OpStep md5I a b c d (x 0) 6 0xF4292244
  let d := md5OpStep md5I d a b c (x 7) 10 0x432AFF97
  let c := md5OpStep md5I c d a b (x 14) 15 0xAB9423A7
  let b := md5OpStep md5I b c d a (x 5) 21 0xFC93A039
  let a := md5OpStep md5I a b c d (x 12) 6 0x655B59C3
  let d := md5OpStep md5I d a b c (x 3) 10 0x8F0CCC92
  let c := md5OpStep md5I c d a b (x 10) 15 0xFFEFF47D
  let b := md5OpStep md5I b c d a (x 1) 21 0x85845DD1
  let a := md5OpStep md5I a b c d (x 8) 6 0x6FA87E4F
  let d := md5OpStep md5I d a b c (x 15) 10 0xFE2CE6E0
  let c := md5OpStep md5I c d a b (x 6) 15 0xA3014314
  let b := md5OpStep md5I b c d a (x 13) 21 0x4E0811A1
  let a := md5OpStep md5I a b c d (x 4) 6 0xF7537E82
  let d := md5OpStep md5I d a b c (x 11) 10 0xBD3AF235
  let c := md5OpStep md5I c d a b (x 2) 15 0x2AD7D2BB
  let b := md5OpStep md5I b c d a (x 9) 21 0xEB86D391
  ((st.1 + a) % 2 ^ 32, (st.2.1 + b) % 2 ^ 32, (st.2.2.1 + c) % 2 ^ 32,
    (st.2.2.2 + d) % 2 ^ 32)

/-- `u32::to_le_bytes`. -/
def leBytes4 (w : ℕ) : List ℕ :=
  [w % 256, w / 256 % 256, w / 65536 % 256, w / 16777216 % 256]

/-- MD5 context.  The source keeps the not-yet-transformed tail of the input
    in a fixed 64-byte array `buffer` together with the running bit count; we
    model the occupied part `buffer[0 .. (count[0]/8) % 64]` as the list
    `pending`.  `count` is the pair of u32 words of the wrapping bit count. -/
structure Md5Ctx where
  state : ℕ × ℕ × ℕ × ℕ
  countLo : ℕ
  countHi : ℕ
  pending : List ℕ

/-- `MD5Context::new`. -/
def md5Init : Md5Ctx :=
  { state := (0x67452301, 0xEFCDAB89, 0x98BADCFE, 0x10325476),
    countLo := 0, countHi := 0, pending := [] }

/-- Transform as many complete 64-byte blocks as possible; the fuel bounds
    the number of iterations (one per 64 bytes of stream). -/
def md5ChunksGo : ℕ → (ℕ × ℕ × ℕ × ℕ) → List ℕ → (ℕ × ℕ × ℕ × ℕ) × List ℕ
  | 0, st, stream => (st, stream)
  | fuel + 1, st, stream =>
      if 64 ≤ stream.length then
        md5ChunksGo fuel (md5Transform st (stream.take 64)) (stream.drop 64)
      else (st, stream)

/-- `MD5Context::update`: advance the wrapping bit count, then consume the
    pending bytes plus new data block by block, buffering the remainder. -/
def md5Update (ctx : Md5Ctx) (data : List ℕ) : Md5Ctx :=
  let len := data.length
  let lenBits := ((len % 2 ^ 32) <<< 3) % 2 ^ 32
  let lo := (ctx.countLo + lenBits) % 2 ^ 32
  let hi := if lo < lenBits then (ctx.countHi + 1) % 2 ^ 32 else ctx.countHi
  let hi := (hi + (len % 2 ^ 32) >>> 29) % 2 ^ 32
  let stream := ctx.pending ++ data
  let res := md5ChunksGo (stream.length / 64 + 1) ctx.state stream
  { state := res.1, countLo := lo, countHi := hi, pending := res.2 }

/-- `MD5Context::finalize`: pad to 56 mod 64, append the 8 count bytes,
    output the state words little-endian. -/
def md5Finalize (ctx : Md5Ctx) : List ℕ :=
  let bits := leBytes4 ctx.countLo ++ leBytes4 ctx.countHi
  let index := (ctx.countLo >>> 3) &&& 0x3F
  let padLen := if index < 56 then 56 - index else 120 - index
  let padding := 0x80 :: List.replicate (padLen - 1) 0
  let ctx2 := md5Update ctx padding
  let ctx3 := md5Update ctx2 bits
  leBytes4 ctx3.state.1 ++ leBytes4 ctx3.state.2.1 ++
    leBytes4 ctx3.state.2.2.1 ++ leBytes4 ctx3.state.2.2.2

/-- `i16::to_le_bytes` of a sample (two's-complement low 16 bits). -/
def i16LeBytes (s : ℤ) : List ℕ :=
  [(s % 65536).toNat % 256, (s % 65536).toNat / 256]

/-- `compute_md5`: digest of the interleaved i16 samples in little-endian
    byte order. -/
def computeMd5 (samples : List ℤ) : List ℕ :=
  md5Finalize (samples.foldl (fun ctx s => md5Update ctx (i16LeBytes s)) md5Init)

/-! ### Bit writer (`struct BitWriter`, `src/flac.rs:404-536`) -/

/-- MSB-first bit writer: completed bytes, the partial byte under
    construction and the number of bits in it. -/
structure BitWriter where
  buffer : List ℕ
  currentByte : ℕ
  bitCount : ℕ
deriving Repr, DecidableEq

/-- `BitWriter::new`. -/
def BitWriter.new : BitWriter := ⟨[], 0, 0⟩

/-- The loop of `BitWriter::write_bits`.  The fuel equals the initial number
    of bits, which bounds the iteration count because each pass writes at
    least one bit (`bit_count` is always `< 8` between calls). -/
def writeBitsAux : ℕ → BitWriter → ℕ → ℕ → BitWriter
  | 0, w, _, _ => w
  | fuel + 1, w, value, bitsRemaining =>
      if bitsRemaining = 0 then w
      else
        let bitsToWrite := min (8 - w.bitCount) bitsRemaining
        let shift := bitsRemaining - bitsToWrite
        let mask := if 64 ≤ bitsToWrite then 2 ^ 64 - 1 else (1 <<< bitsToWrite) - 1
        let bitsValue := if 64 ≤ shift then 0 else (value >>> shift) &&& mask
        let nextByte := w.currentByte ||| (bitsValue <<< (8 - w.bitCount - bitsToWrite))
        let nextCount := w.bitCount + bitsToWrite
        let w2 := if nextCount = 8 then BitWriter.mk (w.buffer ++ [nextByte]) 0 0
          else BitWriter.mk w.buffer nextByte nextCount
        writeBitsAux fuel w2 value (bitsRemaining - bitsToWrite)

/-- `BitWriter::write_bits` (the `value` argument is a u64 at every call
    site). -/
def writeBits (w : BitWriter) (value bits : ℕ) : BitWriter :=
  writeBitsAux bits w value bits

/-- `BitWriter::write_byte`. -/
def writeByte (w : BitWriter) (byte : ℕ) : BitWriter := writeBits w byte 8

/-- `BitWriter::write_bytes`. -/
def writeBytes (w : BitWriter) (bytes : List ℕ) : BitWriter :=
  bytes.foldl writeByte w

/-- `BitWriter::write_unary`: `value` zeros then a one. -/
def writeUnary (w : BitWriter) (value : ℕ) : BitWriter :=
  writeBits ((List.range value).foldl (fun w2 _ => writeBits w2 0 1) w) 1 1

/-- `BitWriter::byte_align`. -/
def byteAlign (w : BitWriter) : BitWriter :=
  if 0 < w.bitCount then BitWriter.mk (w.buffer ++ [w.currentByte]) 0 0 else w

/-- `BitWriter::get_bytes`. -/
def getBytes (w : BitWriter) : List ℕ :=
  w.buffer ++ (if 0 < w.bitCount then [w.currentByte] else [])

/-! ### Frame-number encoding and subframe machinery -/

/-- `write_utf8_number` (`src/flac.rs:547-631`). -/
def writeUtf8Number (w : BitWriter) (value : ℕ) : BitWriter :=
  if value < 0x80 then writeByte w value
  else if value < 0x800 then
    let w := writeByte w (0xC0 ||| ((value >>> 6) &&& 0x1F))
    writeByte w (0x80 ||| (value &&& 0x3F))
  else if value < 0x10000 then
    let w := writeByte w (0xE0 ||| ((value >>> 12) &&& 0x0F))
    let w := writeByte w (0x80 ||| ((value >>> 6) &&& 0x3F))
    writeByte w (0x80 ||| (value &&& 0x3F))
  else if value < 0x200000 then
    let w := writeByte w (0xF0 ||| ((value >>> 18) &&& 0x07))
    let w := writeByte w (0x80 ||| ((value >>> 12) &&& 0x3F))
    let w := writeByte w (0x80 ||| ((value >>> 6) &&& 0x3F))
    writeByte w (0x80 ||| (value &&& 0x3F))
  else if value < 0x4000000 then
    let w := writeByte w (0xF8 ||| ((value >>> 24) &&& 0x03))
    let w := writeByte w (0x80 ||| ((value >>> 18) &&& 0x3F))
    let w := writeByte w (0x80 ||| ((value >>> 12) &&& 0x3F))
    let w := writeByte w (0x80 ||| ((value >>> 6) &&& 0x3F))
    writeByte w (0x80 ||| (value &&& 0x3F))
  else if value < 0x80000000 then
    let w := writeByte w (0xFC ||| ((value >>> 30) &&& 0x01))
    let w := writeByte w (0x80 ||| ((value >>> 24) &&& 0x3F))
    let w := writeByte w (0x80 ||| ((value >>> 18) &&& 0x3F))
    let w := writeByte w (0x80 ||| ((value >>> 12) &&& 0x3F))
    let w := writeByte w (0x80 ||| ((value >>> 6) &&& 0x3F))
    writeByte w (0x80 ||| (value &&& 0x3F))
  else
    let w := writeByte w 0xFE
    let w := writeByte w (0x80 ||| ((value >>> 30) &&& 0x3F))
    let w := writeByte w (0x80 ||| ((value >>> 24) &&& 0x3F))
    let w := writeByte w (0x80 ||| ((value >>> 18) &&& 0x3F))
    let w := writeByte w (0x80 ||| ((value >>> 12) &&& 0x3F))
    let w := writeByte w (0x80 ||| ((value >>> 6) &&& 0x3F))
    writeByte w (0x80 ||| (value &&& 0x3F))

/-- The predicted value for sample `i` at orders 1–4. -/
def fixedPrediction (samples : List ℤ) (order i : ℕ) : ℤ :=
  match order with
  | 1 => samples.getD (i - 1) 0
  | 2 => 2 * samples.getD (i - 1) 0 - samples.getD (i - 2) 0
  | 3 => 3 * samples.getD (i - 1) 0 - 3 * samples.getD (i - 2) 0 +
      samples.getD (i - 3) 0
  | 4 => 4 * samples.getD (i - 1) 0 - 6 * samples.getD (i - 2) 0 +
      4 * samples.getD (i - 3) 0 - samples.getD (i - 4) 0
  | _ => 0

/-- `apply_fixed_predictor`: zeros for the warm-up positions, then
    `sample − predicted`.  An order `≥ 5` hits the `_ => return residual`
    arm, truncating the output to the warm-up zeros pushed so far; order 0
    has predicted value 0. -/
def applyFixedPredictor (samples : List ℤ) (order : ℕ) : List ℤ :=
  if 5 ≤ order then List.replicate (min order samples.length) 0
  else
    (List.range samples.length).map (fun i =>
      if i < order then 0 else samples.getD i 0 - fixedPrediction samples order i)

/-- The estimation loop of `calculate_rice_parameter`
    (`while test_mean > 0 && param < 14`). -/
def riceParamLoop (testMean param : ℕ) : ℕ :=
  if h : 0 < testMean ∧ param < 14 then
    let t := testMean >>> 1
    riceParamLoop t (if 0 < t then param + 1 else param)
  else param
termination_by testMean
decreasing_by
  simp only [Nat.shiftRight_eq_div_pow, pow_one]
  exact Nat.div_lt_self h.1 (by omega)

/-- `calculate_rice_parameter` (`src/flac.rs:689-724`). -/
def calculateRiceParameter (residual : List ℤ) : ℕ :=
  if residual = [] then 0
  else
    let sum := (residual.map Int.natAbs).sum
    let mean := sum / residual.length
    if mean = 0 then 0
    else
      let param := riceParamLoop mean 0
      let param := if 0 < param ∧ mean < 1 <<< (param - 1) then param - 1
        else param
      min param 14

/-- Zigzag fold of a residual (`encode_rice_partition`). -/
def zigzag (s : ℤ) : ℕ :=
  if 0 ≤ s then s.toNat <<< 1 else ((-(s + 1)).toNat <<< 1) ||| 1

/-- `encode_rice_partition` (always returns `Ok`, so the writer is returned
    directly). -/
def encodeRicePartition (w : BitWriter) (residual : List ℤ)
    (riceParam : ℕ) : BitWriter :=
  residual.foldl (fun w2 s =>
    let folded := zigzag s
    let msb := folded >>> riceParam
    let lsb := folded &&& ((1 <<< riceParam) - 1)
    let w3 := writeUnary w2 msb
    if 0 < riceParam then writeBits w3 lsb riceParam else w3) w

/-- `usize::trailing_zeros` (64 for zero input; block sizes stay far below
    `2^64`). -/
def trailingZeroBits (n : ℕ) : ℕ :=
  (((List.range 64).filter (fun k => n.testBit k)).headD 64)

/-- The `partition_order` initializer in `encode_residual`. -/
def partitionOrderInit (blockSize level : ℕ) : ℕ :=
  match level with
  | 0 => 0
  | 1 | 2 => min 2 (min (trailingZeroBits blockSize) 8)
  | 3 | 4 | 5 => min 4 (min (trailingZeroBits blockSize) 8)
  | _ => min 6 (min (trailingZeroBits blockSize) 8)

/-- The `while partition_order > 0` shrink loop of `encode_residual`. -/
def shrinkPartitionOrder : ℕ → ℕ → ℕ → ℕ
  | 0, _, _ => 0
  | po + 1, predictorOrder, blockSize =>
      let partitionSamples := blockSize >>> (po + 1)
      if predictorOrder < partitionSamples ∧ 4 ≤ partitionSamples then po + 1
      else shrinkPartitionOrder po predictorOrder blockSize

/-- The `bits_needed` search of the escape path (`while (1 << bits) <= max_val
    && bits < 32`), with fuel 32 covering every possible iteration. -/
def escBitsLoop : ℕ → ℕ → ℕ → ℕ
  | 0, b, _ => b
  | fuel + 1, b, maxVal =>
      if (1 <<< b) ≤ maxVal ∧ b < 32 then escBitsLoop fuel (b + 1) maxVal
      else b

/-- The body of the partition loop in `encode_residual`, carrying
    `(writer, sample_idx)`. -/
def encodePartition (residual : List ℤ) (defaultPartitionSamples
    predictorOrder : ℕ) (acc : BitWriter × ℕ) (partitionIdx : ℕ) :
    BitWriter × ℕ :=
  let partitionSamples := if partitionIdx = 0 then
      defaultPartitionSamples - predictorOrder
    else defaultPartitionSamples
  if partitionSamples = 0 then acc
  else
    let part := (residual.drop acc.2).take partitionSamples
    let sampleIdx := acc.2 + partitionSamples
    let riceParam := calculateRiceParameter part
    if 14 < riceParam then
      -- escape code for incompressible data
      let w := writeBits acc.1 0xF 4
      let maxVal := part.foldl (fun m s => max m s.natAbs) 0
      let bitsNeeded := min (max (escBitsLoop 32 1 maxVal + 1) 1) 32
      let w := writeBits w (bitsNeeded - 1) 5
      let w := part.foldl (fun w2 s =>
        writeBits w2 ((s % 2 ^ 32).toNat) bitsNeeded) w
      (w, sampleIdx)
    else
      let w := writeBits acc.1 riceParam 4
      (encodeRicePartition w part riceParam, sampleIdx)

/-- `encode_residual` (`src/flac.rs:785-882`). -/
def encodeResidual (w : BitWriter) (residual : List ℤ)
    (predictorOrder blockSize level : ℕ) : BitWriter :=
  let partitionOrder := shrinkPartitionOrder
    (partitionOrderInit blockSize level) predictorOrder blockSize
  let w := writeBits w 0 2
  let w := writeBits w partitionOrder 4
  let numPartitions := 1 <<< partitionOrder
  let defaultPartitionSamples := blockSize >>> partitionOrder
  ((List.range numPartitions).foldl
    (encodePartition residual defaultPartitionSamples predictorOrder)
    (w, 0)).1

/-- `i32 as u64` (sign extension then reinterpretation). -/
def intToU64 (s : ℤ) : ℕ := (s % 2 ^ 64).toNat

/-- The predictor order chosen by `encode_subframe` for a compression
    level (the `_` arm coincides with `5..=8`). -/
def subframePredictorOrder (blockSize level : ℕ) : ℕ :=
  match level with
  | 0 => 0
  | 1 => if 1 ≤ blockSize then 1 else 0
  | 2 => if 2 ≤ blockSize then 2 else 0
  | 3 | 4 => if 3 ≤ blockSize then 3 else 0
  | _ => if 4 ≤ blockSize then 4 else 0

/-- `encode_subframe` (`src/flac.rs:898-956`). -/
def encodeSubframe (w : BitWriter) (samples : List ℤ)
    (bitsPerSample level : ℕ) : BitWriter :=
  let blockSize := samples.length
  let predictorOrder := subframePredictorOrder blockSize level
  let w := writeBits w 0 1
  let w := if predictorOrder = 0 then writeBits w 0b000001 6
    else writeBits w (0b001000 ||| predictorOrder) 6
  let w := writeBits w 0 1
  if predictorOrder = 0 then
    samples.foldl (fun w2 s => writeBits w2 (intToU64 s) bitsPerSample) w
  else
    let w := (List.range predictorOrder).foldl (fun w2 i =>
      writeBits w2 (intToU64 (samples.getD i 0)) bitsPerSample) w
    let residual := applyFixedPredictor samples predictorOrder
    encodeResidual w (residual.drop predictorOrder) predictorOrder blockSize
      level

/-- The 4-bit block-size code of the frame header. -/
def blockSizeBitsFor (blockSize : ℕ) : ℕ :=
  match blockSize with
  | 192 => 0b0001
  | 576 => 0b0010
  | 1152 => 0b0011
  | 2304 => 0b0100
  | 4608 => 0b0101
  | 256 => 0b1000
  | 512 => 0b1001
  | 1024 => 0b1010
  | 2048 => 0b1011
  | 4096 => 0b1100
  | 8192 => 0b1101
  | 16384 => 0b1110
  | 32768 => 0b1111
  | _ => if blockSize < 256 then 0b0110 else 0b0111

/-- The 4-bit sample-rate code of the frame header. -/
def sampleRateBitsFor (sampleRate : ℕ) : ℕ :=
  match sampleRate with
  | 88200 => 0b0001
  | 176400 => 0b0010
  | 192000 => 0b0011
  | 8000 => 0b0100
  | 16000 => 0b0101
  | 22050 => 0b0110
  | 24000 => 0b0111
  | 32000 => 0b1000
  | 44100 => 0b1001
  | 48000 => 0b1010
  | 96000 => 0b1011
  | _ => 0b0000

/-- The deinterleaved samples of channel `ch` (`channel_samples` is
    zero-initialized, so out-of-range slots stay 0). -/
def deinterleave (samples : List ℤ) (channels blockSize ch : ℕ) : List ℤ :=
  (List.range blockSize).map (fun i =>
    if i * channels + ch < samples.length then samples.getD (i * channels + ch) 0
    else 0)

/-- The 4-bit channel-assignment code of the frame header. -/
def channelBitsFor (channels : ℕ) : ℕ :=
  if channels = 1 then 0b0000
  else if channels = 2 then 0b0001 else channels - 1

/-- The 3-bit sample-size code of the frame header. -/
def sampleSizeBitsFor (bitsPerSample : ℕ) : ℕ :=
  match bitsPerSample with
  | 8 => 0b001
  | 12 => 0b010
  | 16 => 0b100
  | 20 => 0b101
  | 24 => 0b110
  | _ => 0b000

/-- `encode_frame` (`src/flac.rs:975-1132`). -/
def encodeFrame (w : BitWriter) (samples : List ℤ)
    (channels sampleRate bitsPerSample frameNumber blockSize level : ℕ) :
    BitWriter :=
  let frameStart := w.buffer.length
  let w := writeBits w 0x3FFE 14
  let w := writeBits w 0 1
  let w := writeBits w 0 1
  let blockSizeBits := blockSizeBitsFor blockSize
  let w := writeBits w blockSizeBits 4
  let w := writeBits w (sampleRateBitsFor sampleRate) 4
  let w := writeBits w (channelBitsFor channels) 4
  let w := writeBits w (sampleSizeBitsFor bitsPerSample) 3
  let w := writeBits w 0 1
  let w := writeUtf8Number w frameNumber
  let w := if blockSizeBits = 0b0110 then writeByte w ((blockSize - 1) % 256)
    else if blockSizeBits = 0b0111 then writeBits w (blockSize - 1) 16
    else w
  let headerBytes := w.buffer.drop frameStart ++
    (if 0 < w.bitCount then [w.currentByte] else [])
  let w := writeByte w (crc8 headerBytes)
  let w := (List.range channels).foldl (fun w2 ch =>
    encodeSubframe w2 (deinterleave samples channels blockSize ch)
      bitsPerSample level) w
  let w := byteAlign w
  let frameBytes := w.buffer.drop frameStart
  writeBits w (crc16 frameBytes) 16

/-- `write_streaminfo` (`src/flac.rs:1147-1183`). -/
def writeStreaminfo (w : BitWriter) (minBlockSize maxBlockSize minFrameSize
    maxFrameSize sampleRate channels bitsPerSample totalSamples : ℕ)
    (md5 : List ℕ) : BitWriter :=
  let w := writeBits w 1 1
  let w := writeBits w 0 7
  let w := writeBits w 34 24
  let w := writeBits w minBlockSize 16
  let w := writeBits w maxBlockSize 16
  let w := writeBits w minFrameSize 24
  let w := writeBits w maxFrameSize 24
  let w := writeBits w sampleRate 20
  let w := writeBits w (channels - 1) 3
  let w := writeBits w (bitsPerSample - 1) 5
  let w := writeBits w totalSamples 36
  md5.foldl writeByte w

/-- The encoder's block size for a compression level, before clamping. -/
def blockSizeTable (level : ℕ) : ℕ :=
  match level with
  | 0 | 1 | 2 => 1152
  | _ => 4096

/-- The block size actually chosen: the level's table entry clamped to
    `[16, total_samples_per_channel]` (`.min(total_samples).max(16)`). -/
def chosenBlockSize (level totalSamples : ℕ) : ℕ :=
  max (min (blockSizeTable level) totalSamples) 16

/-- The frame loop of `encode_flac_with_level`
    (`while sample_offset < i16_samples.len()`).  The fuel bounds the
    iteration count: every pass either stops or consumes at least one
    sample. -/
def encodeFrames : ℕ → BitWriter → List ℤ → ℕ → ℕ → ℕ → ℕ → ℕ → ℕ →
    BitWriter
  | 0, w, _, _, _, _, _, _, _ => w
  | fuel + 1, w, remaining, channels, sampleRate, bitsPerSample, frameNumber,
      blockSize, level =>
      if remaining = [] then w
      else
        let currentBlockSize := min blockSize (remaining.length / channels)
        if currentBlockSize = 0 then w
        else
          let frameSamples := remaining.take (currentBlockSize * channels)
          let w2 := encodeFrame w frameSamples channels sampleRate
            bitsPerSample frameNumber currentBlockSize level
          encodeFrames fuel w2 (remaining.drop (currentBlockSize * channels))
            channels sampleRate bitsPerSample (frameNumber + 1) blockSize level

/-- The two failure modes of the encoder (`anyhow!` messages "FLAC requires
    at least 16 samples per channel" and "Invalid compression level"). -/
inductive FlacError
  | tooShort
  | invalidConfig
deriving Repr, DecidableEq

/-- `encode_flac_with_level` (`src/flac.rs:1198-1303`).  Downstream helpers
    return their `Result` as `Ok` on every path, so only the two validation
    checks can produce an error. -/
def encodeFlacWithLevel (samples : List ℚ) (sampleRate channels level : ℕ) :
    Except FlacError (List ℕ) :=
  let i16Samples := samples.map flacF32ToI16
  let totalSamples := i16Samples.length / channels
  if totalSamples < 16 then Except.error FlacError.tooShort
  else if 8 < level then Except.error FlacError.invalidConfig
  else
    let bitsPerSample := 16
    let blockSize := chosenBlockSize level totalSamples
    let w := BitWriter.new
    let w := writeBytes w [0x66, 0x4C, 0x61, 0x43]
    let md5 := computeMd5 i16Samples
    let w := writeStreaminfo w (blockSize % 2 ^ 16) (blockSize % 2 ^ 16) 0 0
      sampleRate channels bitsPerSample totalSamples md5
    let w := encodeFrames (i16Samples.length + 1) w i16Samples channels
      sampleRate bitsPerSample 0 blockSize level
    Except.ok (getBytes w)

/-! ## Claim-support definitions -/

/-- The frame count cap used by the waveform summarizer. -/
def waveFrameCap (t : AudioTrack) : ℕ := t.audioData.length / t.channels

/-- The clamped start frame computed by `get_track_waveform`. -/
def waveStartFrame (t : AudioTrack) (startTime : ℚ) : ℕ :=
  min (qToUsize (startTime * (t.sampleRate : ℚ))) (waveFrameCap t)

/-- The clamped end frame computed by `get_track_waveform`. -/
def waveEndFrame (t : AudioTrack) (endTime : ℚ) : ℕ :=
  min (qToUsize (endTime * (t.sampleRate : ℚ))) (waveFrameCap t)

/-- The partition-loop body with the escape branch removed: every partition
    is written as a 4-bit Rice parameter followed by the Rice-coded
    residuals.  Stated from the spec's words for comparison with
    `encodePartition`. -/
def encodePartitionRiceOnly (residual : List ℤ) (defaultPartitionSamples
    predictorOrder : ℕ) (acc : BitWriter × ℕ) (partitionIdx : ℕ) :
    BitWriter × ℕ :=
  let partitionSamples := if partitionIdx = 0 then
      defaultPartitionSamples - predictorOrder
    else defaultPartitionSamples
  if partitionSamples = 0 then acc
  else
    let part := (residual.drop acc.2).take partitionSamples
    let sampleIdx := acc.2 + partitionSamples
    let riceParam := calculateRiceParameter part
    let w := writeBits acc.1 riceParam 4
    (encodeRicePartition w part riceParam, sampleIdx)

/-- `encode_residual` with the (unreachable) escape branch removed. -/
def encodeResidualRiceOnly (w : BitWriter) (residual : List ℤ)
    (predictorOrder blockSize level : ℕ) : BitWriter :=
  let partitionOrder := shrinkPartitionOrder
    (partitionOrderInit blockSize level) predictorOrder blockSize
  let w := writeBits w 0 2
  let w := writeBits w partitionOrder 4
  let numPartitions := 1 <<< partitionOrder
  let defaultPartitionSamples := blockSize >>> partitionOrder
  ((List.range numPartitions).foldl
    (encodePartitionRiceOnly residual defaultPartitionSamples predictorOrder)
    (w, 0)).1

/-- The left-channel value the mono-to-stereo mix ends up with at frame
    `frameIdx`: the sample of the last pair (in insertion order) whose first
    track still has data there, and `0.0` if no pair covers the frame.
    Stated from the amended claim's words. -/
def lastPairSampleL (startTime : ℚ) (pairs : List (AudioTrack × AudioTrack))
    (frameIdx : ℕ) : ℚ :=
  pairs.foldl (fun acc pr =>
    let leftStart := qToUsize (startTime * (pr.1.sampleRate : ℚ))
    if leftStart + frameIdx < pr.1.audioData.length then
      pr.1.audioData.getD (leftStart + frameIdx) 0
    else acc) 0

/-- Right-channel analogue of `lastPairSampleL` (second track of each pair). -/
def lastPairSampleR (startTime : ℚ) (pairs : List (AudioTrack × AudioTrack))
    (frameIdx : ℕ) : ℚ :=
  pairs.foldl (fun acc pr =>
    let rightStart := qToUsize (startTime * (pr.2.sampleRate : ℚ))
    if rightStart + frameIdx < pr.2.audioData.length then
      pr.2.audioData.getD (rightStart + frameIdx) 0
    else acc) 0

/-- The `total_frames` the mono-to-stereo export computes from the first
    track's sample rate (`end_frame.saturating_sub(start_frame)`). -/
def m2sTotalFrames (tracks : List AudioTrack) (startTime endTime : ℚ) : ℕ :=
  match tracks with
  | [] => 0
  | t0 :: _ =>
      qToUsize (endTime * (t0.sampleRate : ℚ)) -
        qToUsize (startTime * (t0.sampleRate : ℚ))

/-- Four mono one-frame tracks at 1 Hz: two pairs, whose second pair
    overwrites the first in the mono-to-stereo mix. -/
def c4Tracks : List AudioTrack :=
  [⟨[1/2], 1, 1⟩, ⟨[0], 1, 1⟩, ⟨[1/4], 1, 1⟩, ⟨[0], 1, 1⟩]

/-- One mono track of two samples, for the delete-region counterexample. -/
def c6Tracks : List AudioTrack := [⟨[0, 0], 1, 1⟩]

/-- A decoded packet carrying one mono frame, fed to a two-channel track:
    `append_audio_buffer` pushes `min(2, 1) = 1` sample for it. -/
def c8Buf : DecodedBuffer :=
  { fmt := BufFormat.s16, bufChannels := 1, frames := 1, data := fun _ _ => 1 }

/-- The concrete mono track used by the zoomed-in waveform witness. -/
def c5Track : AudioTrack := ⟨[3/4, -1/2], 1, 1⟩

/-- The playback invariants of the spec: the position never passes the end
    of the buffer, and `is_playing`/`is_paused` are never both true. -/
def PlaybackInv (s : PlaybackState) : Prop :=
  s.position ≤ s.buffer.length ∧ ¬(s.isPlaying = true ∧ s.isPaused = true)

/-! ## General helper lemmas -/

/-- Setting a list slot to its own value is the identity. -/
theorem set_getElem_id {α : Type} (l : List α) (n : ℕ) (h : n < l.length) :
    l.set n l[n] = l := by
  apply List.ext_getElem
  · simp
  · intro i h1 h2
    by_cases hi : n = i
    · subst hi; simp
    · rw [List.getElem_set_ne hi]

/-! ## C7: playback transport invariants -/

/-- One callback slot preserves the playback invariants. -/
theorem playbackInv_slot (s : PlaybackState) (h : PlaybackInv s) :
    PlaybackInv (callbackSlot s) := by
  obtain ⟨h1, h2⟩ := h
  unfold callbackSlot PlaybackInv
  split_ifs with hc1 hc2
  · exact ⟨by simpa using hc1.2, h2⟩
  · exact ⟨h1, by simp⟩
  · exact ⟨h1, h2⟩

/-- Every transport operation preserves the playback invariants. -/
theorem playbackInv_op (s : PlaybackState) (op : TransportOp)
    (h : PlaybackInv s) : PlaybackInv (applyOp s op) := by
  obtain ⟨h1, h2⟩ := h
  cases op with
  | play buf offset => exact ⟨by simp [applyOp, playOp], by simp [applyOp, playOp]⟩
  | pause =>
      unfold applyOp pauseOp
      split_ifs with hc
      · exact ⟨h1, by simp⟩
      · exact ⟨h1, h2⟩
  | resume =>
      unfold applyOp resumeOp
      split_ifs with hc
      · exact ⟨h1, by simp⟩
      · exact ⟨h1, h2⟩
  | stop => exact ⟨by simp [applyOp, stopOp], by simp [applyOp, stopOp]⟩
  | setPosition pos rate ch =>
      exact ⟨by simp [applyOp, setPositionOp], by simpa [applyOp, setPositionOp] using h2⟩
  | callback n =>
      unfold applyOp callbackOp
      have hfold : ∀ (l : List ℕ) (st : PlaybackState), PlaybackInv st →
          PlaybackInv (l.foldl (fun s2 _ => callbackSlot s2) st) := by
        intro l
        induction l with
        | nil => intro st hst; simpa using hst
        | cons a rest ih =>
            intro st hst
            simp only [List.foldl_cons]
            exact ih _ (playbackInv_slot st hst)
      exact hfold _ s ⟨h1, h2⟩

/-- C7: after any sequence of transport calls and callback pulls starting
    from the freshly created playback object, `position ≤ len(buffer)` and
    `is_playing`/`is_paused` are never both true. -/
theorem c7_transport_invariants (ops : List TransportOp) :
    (applyOps ops).position ≤ (applyOps ops).buffer.length ∧
    ¬((applyOps ops).isPlaying = true ∧ (applyOps ops).isPaused = true) := by
  have hfold : ∀ (l : List TransportOp) (s : PlaybackState), PlaybackInv s →
      PlaybackInv (l.foldl applyOp s) := by
    intro l
    induction l with
    | nil => intro s hs; simpa using hs
    | cons op rest ih =>
        intro s hs
        simp only [List.foldl_cons]
        exact ih _ (playbackInv_op s op hs)
  have hinit : PlaybackInv initPlayback := by
    constructor <;> simp [initPlayback]
  exact hfold ops initPlayback hinit

/-! ## C10: defaults with no tracks loaded -/

/-- C10: when no tracks are loaded, `get_sample_rate` returns 44100,
    `get_channels` returns 2 and `get_duration` returns 0.0. -/
theorem c10_empty_store_defaults :
    getSampleRate [] = 44100 ∧ getChannels [] = 2 ∧ getDuration [] = 0 :=
  ⟨rfl, rfl, rfl⟩

/-! ## C1: float32 → int16 conversion -/

/-- C1 counterexample: the code truncates toward zero instead of rounding
    (at `x = 1/2` the claimed value is `round(16383.5) = 16384` but both
    conversions produce 16383), and at `x = -2` (below `-32768/32767`) the
    FLAC path saturates at −32768 while WAV export clamps the input first
    and yields −32767. -/
theorem c1_counterexample :
    (flacF32ToI16 (1/2) = 16383 ∧ wavF32ToI16 (1/2) = 16383 ∧
      specRoundToI16 (1/2) = 16384) ∧
    (flacF32ToI16 (-2) = -32768 ∧ wavF32ToI16 (-2) = -32767) := by
  have hceil1 : ⌈(-32768 : ℚ)⌉ = -32768 := by
    rw [show ((-32768 : ℚ)) = ((-32768 : ℤ) : ℚ) by norm_num, Int.ceil_intCast]
  have hceil2 : ⌈(-32767 : ℚ)⌉ = -32767 := by
    rw [show ((-32767 : ℚ)) = ((-32767 : ℤ) : ℚ) by norm_num, Int.ceil_intCast]
  refine ⟨⟨?_, ?_, ?_⟩, ?_, ?_⟩
  · unfold flacF32ToI16 clampQ truncQ
    rw [show (1/2 : ℚ) * 32767 = 32767/2 by norm_num,
      min_eq_left (by norm_num), max_eq_right (by norm_num),
      if_pos (by norm_num)]
    norm_num
  · unfold wavF32ToI16 clampQ truncQ
    rw [min_eq_left (by norm_num), max_eq_right (by norm_num),
      show (1/2 : ℚ) * 32767 = 32767/2 by norm_num, if_pos (by norm_num)]
    norm_num
  · unfold specRoundToI16 clampQ
    rw [min_eq_left (by norm_num), max_eq_right (by norm_num),
      show (1/2 : ℚ) * 32767 = 32767/2 by norm_num, round_eq]
    norm_num
  · unfold flacF32ToI16 clampQ truncQ
    rw [show (-2 : ℚ) * 32767 = -65534 by norm_num,
      min_eq_left (by norm_num), max_eq_left (by norm_num),
      if_neg (by norm_num)]
    exact hceil1
  · unfold wavF32ToI16 clampQ truncQ
    rw [min_eq_left (by norm_num), max_eq_left (by norm_num),
      show (-1 : ℚ) * 32767 = -32767 by norm_num, if_neg (by norm_num)]
    exact hceil2

/-- C1 amended: for every input `x ≥ -1` the FLAC pre-processing and the WAV
    export produce the same 16-bit integer, namely
    `trunc(clamp(x, -1, +1) × 32767)` (truncation toward zero, not
    rounding).  For `x < -1` WAV export yields −32767; the FLAC path also
    yields −32767 while `x` is still above `-32768/32767` (there the
    product lies in `(-32768, -32767)` and truncation toward zero lands on
    −32767), and saturates at −32768 exactly when `x ≤ -32768/32767`. -/
theorem c1_amended_trunc (x : ℚ) :
    ((-1 : ℚ) ≤ x →
      flacF32ToI16 x = specTruncToI16 x ∧
        wavF32ToI16 x = specTruncToI16 x) ∧
    (x < -1 → wavF32ToI16 x = -32767) ∧
    (-32768/32767 < x → x < -1 → flacF32ToI16 x = -32767) ∧
    (x ≤ -32768/32767 → flacF32ToI16 x = -32768) := by
  refine ⟨?_, ?_, ?_, ?_⟩
  · intro hx
    refine ⟨?_, rfl⟩
    unfold flacF32ToI16 specTruncToI16 clampQ
    have hM : (-32767 : ℚ) ≤ min (x * 32767) 32767 := by
      refine le_min (by nlinarith) (by norm_num)
    have h1 : max (-32768 : ℚ) (min (x * 32767) 32767) =
        min (x * 32767) 32767 := max_eq_right (le_trans (by norm_num) hM)
    have h2 : max (-1 : ℚ) (min x 1) * 32767 = min (x * 32767) 32767 := by
      rw [max_mul_of_nonneg _ _ (by norm_num : (0:ℚ) ≤ 32767),
        min_mul_of_nonneg _ _ (by norm_num : (0:ℚ) ≤ 32767)]
      norm_num
      exact hM.trans (min_le_left _ _)
    rw [h1, h2]
  · intro hx
    unfold wavF32ToI16 clampQ truncQ
    rw [min_eq_left (by linarith), max_eq_left (le_of_lt hx),
      show (-1 : ℚ) * 32767 = -32767 by norm_num, if_neg (by norm_num)]
    rw [show ((-32767 : ℚ)) = ((-32767 : ℤ) : ℚ) by norm_num,
      Int.ceil_intCast]
  · intro h1 h2
    unfold flacF32ToI16 clampQ truncQ
    have ha : x * 32767 ≤ 32767 := by nlinarith
    have hb : (-32768 : ℚ) < x * 32767 := by linarith
    have hc : x * 32767 ≤ -32767 := by nlinarith
    rw [min_eq_left ha, max_eq_right (le_of_lt hb), if_neg (by linarith)]
    rw [Int.ceil_eq_iff]
    constructor
    · push_cast
      linarith
    · push_cast
      linarith
  · intro h1
    unfold flacF32ToI16 clampQ truncQ
    have ha : x * 32767 ≤ -32768 := by linarith
    rw [min_eq_left (by linarith), max_eq_left ha, if_neg (by norm_num)]
    rw [show ((-32768 : ℚ)) = ((-32768 : ℤ) : ℚ) by norm_num,
      Int.ceil_intCast]

/-- C1 witness: the amended theorem applied at `x = 1/2` (both paths agree
    and truncate), `x = -(1 + 2^-23)` (the float32 just below −1, where both
    paths give −32767) and `x = -2` (where FLAC saturates at −32768 but WAV
    gives −32767). -/
theorem c1_amended_trunc_witness :
    (flacF32ToI16 (1/2) = specTruncToI16 (1/2) ∧
      wavF32ToI16 (1/2) = specTruncToI16 (1/2)) ∧
    wavF32ToI16 (-2) = -32767 ∧
    flacF32ToI16 (-(8388609/8388608)) = -32767 ∧
    flacF32ToI16 (-2) = -32768 :=
  ⟨(c1_amended_trunc (1/2)).1 (by norm_num),
    (c1_amended_trunc (-2)).2.1 (by norm_num),
    (c1_amended_trunc (-(8388609/8388608))).2.2.1 (by norm_num) (by norm_num),
    (c1_amended_trunc (-2)).2.2.2 (by norm_num)⟩

/-! ## C2: encoder validation -/

/-- C2 counterexample: with 15 samples per channel AND level 9, the encoder
    fails with `TooShort` (the length check runs first), so "fails with
    `InvalidConfig` iff level > 8" does not hold as stated. -/
theorem c2_counterexample :
    encodeFlacWithLevel (List.replicate 15 0) 44100 1 9 =
      Except.error FlacError.tooShort ∧
    encodeFlacWithLevel (List.replicate 15 0) 44100 1 9 ≠
      Except.error FlacError.invalidConfig := by
  have h0 : encodeFlacWithLevel (List.replicate 15 (0:ℚ)) 44100 1 9 =
      Except.error FlacError.tooShort := rfl
  refine ⟨h0, ?_⟩
  intro h
  rw [h0] at h
  simp at h

/-- C2 amended: with at least one channel (zero channels panics in the
    Rust code), the encoder fails with `TooShort` iff the samples per
    channel are fewer than 16; when the length is valid it fails with
    `InvalidConfig` iff `level > 8`; and every input with ≥ 16 samples per
    channel and level ≤ 8 succeeds.  The only change from the claim is that
    the `TooShort` check precedes the level check, so a too-short input with
    an invalid level reports `TooShort`. -/
theorem c2_amended_validation (samples : List ℚ)
    (sampleRate channels level : ℕ) (hch : 0 < channels) :
    (encodeFlacWithLevel samples sampleRate channels level =
        Except.error FlacError.tooShort ↔ samples.length / channels < 16) ∧
    (16 ≤ samples.length / channels →
      (encodeFlacWithLevel samples sampleRate channels level =
          Except.error FlacError.invalidConfig ↔ 8 < level)) ∧
    (16 ≤ samples.length / channels → level ≤ 8 →
      ∃ out, encodeFlacWithLevel samples sampleRate channels level =
        Except.ok out) := by
  have hch' : 0 < channels := hch
  unfold encodeFlacWithLevel
  simp only [List.length_map]
  split_ifs with h1 h2
  · exact ⟨by simp [h1], fun hge => absurd h1 (by omega),
      fun hge _ => absurd h1 (by omega)⟩
  · exact ⟨by simp [h1], fun _ => by simp [h2],
      fun _ hle => absurd h2 (by omega)⟩
  · exact ⟨by simp [h1], fun _ => by simp [h2], fun _ _ => ⟨_, rfl⟩⟩

/-- C2 witness: the amended theorem at exactly 16 zero samples, one channel,
    level 5 — the success case the claim singles out. -/
theorem c2_amended_validation_witness :
    0 < 1 ∧ 16 ≤ (List.replicate 16 (0:ℚ)).length / 1 ∧ 5 ≤ 8 ∧
    ∃ out, encodeFlacWithLevel (List.replicate 16 0) 44100 1 5 =
      Except.ok out :=
  ⟨by decide, by decide, by decide,
    (c2_amended_validation (List.replicate 16 0) 44100 1 5
      (by decide)).2.2 (by decide) (by decide)⟩

/-! ## C6: delete_region error reporting -/

/-- C6 counterexample: the single requested track is in range and its start
    sample (5 ≥ 2) is past the end, so by the claim the call should report
    `OutOfBounds`; the code skips the track silently, completes, and returns
    `Ok` with the store unchanged. -/
theorem c6_counterexample :
    deleteRegionP c6Tracks 5 6 [0] = some (Except.ok c6Tracks) := by
  have h : deleteRegionTrackP ⟨[0, 0], 1, 1⟩ 5 6 = some ⟨[0, 0], 1, 1⟩ := by
    unfold deleteRegionTrackP qToUsize
    norm_num
  unfold deleteRegionP c6Tracks
  simp [deleteRegionStepP, h]

/-- C6 amended: `delete_region` never produces an error value — every
    completed call returns `Ok` (never `OutOfBounds`), with out-of-range
    indices and tracks whose start sample is at or past the buffer end
    skipped silently; when every requested track is skipped the store is
    returned unchanged.  The call can however fail to complete:
    `Vec::drain` panics on an inverted range, reachable with
    `end_time < start_time` as in `delete_region(1.0, 0.0, [0])` on the
    two-sample 1 Hz mono store. -/
theorem c6_amended_ok_or_panic :
    (∀ (tracks : List AudioTrack) (startTime endTime : ℚ) (idxs : List ℕ),
      (∃ ts, deleteRegionP tracks startTime endTime idxs =
          some (Except.ok ts)) ∨
        deleteRegionP tracks startTime endTime idxs = none) ∧
    deleteRegionP c6Tracks 1 0 [0] = none ∧
    (∀ (tracks : List AudioTrack) (startTime endTime : ℚ) (idxs : List ℕ),
      (∀ i ∈ idxs, tracks.length ≤ i ∨
        (tracks.getD i ⟨[], 0, 0⟩).audioData.length ≤
          qToUsize (startTime * ((tracks.getD i ⟨[], 0, 0⟩).sampleRate : ℚ)) *
            (tracks.getD i ⟨[], 0, 0⟩).channels) →
      deleteRegionP tracks startTime endTime idxs =
        some (Except.ok tracks)) := by
  refine ⟨?_, ?_, ?_⟩
  · intro tracks startTime endTime idxs
    unfold deleteRegionP
    cases h : idxs.foldl (deleteRegionStepP startTime endTime)
        (some tracks) with
    | none =>
        right
        rfl
    | some ts =>
        left
        exact ⟨ts, rfl⟩
  · have h : deleteRegionTrackP ⟨[0, 0], 1, 1⟩ 1 0 = none := by
      unfold deleteRegionTrackP qToUsize
      norm_num
    unfold deleteRegionP c6Tracks
    simp [deleteRegionStepP, h]
  · intro tracks startTime endTime idxs hoob
    unfold deleteRegionP
    have hfold : idxs.foldl (deleteRegionStepP startTime endTime)
        (some tracks) = some tracks := by
      induction idxs with
      | nil => rfl
      | cons i rest ih =>
          have hi := hoob i (by simp)
          have hstep : deleteRegionStepP startTime endTime (some tracks) i =
              some tracks := by
            simp only [deleteRegionStepP]
            rcases hi with hlen | hskip
            · rw [dif_neg (by omega)]
            · rcases Nat.lt_or_ge i tracks.length with hlt | hge
              · rw [dif_pos hlt]
                have hgd : tracks.getD i ⟨[], 0, 0⟩ =
                    tracks.get ⟨i, hlt⟩ := by
                  rw [List.getD_eq_getElem _ _ hlt]
                  rfl
                have ht : deleteRegionTrackP (tracks.get ⟨i, hlt⟩) startTime
                    endTime = some (tracks.get ⟨i, hlt⟩) := by
                  rw [← hgd]
                  unfold deleteRegionTrackP
                  rw [if_pos]
                  exact hskip
                rw [ht, Option.map_some']
                exact congrArg some (set_getElem_id tracks i hlt)
              · rw [dif_neg (by omega)]
          simp only [List.foldl_cons, hstep]
          exact ih (fun j hj => hoob j (by simp [hj]))
    rw [hfold]
    rfl

/-- C6 witness: the skip conjunct of the amended theorem at the
    counterexample store, where every requested track is out of bounds and
    the store is returned unchanged. -/
theorem c6_amended_ok_or_panic_witness :
    (∀ i ∈ [0], c6Tracks.length ≤ i ∨
      (c6Tracks.getD i ⟨[], 0, 0⟩).audioData.length ≤
        qToUsize ((5:ℚ) * ((c6Tracks.getD i ⟨[], 0, 0⟩).sampleRate : ℚ)) *
          (c6Tracks.getD i ⟨[], 0, 0⟩).channels) ∧
    deleteRegionP c6Tracks 5 6 [0] = some (Except.ok c6Tracks) :=
  ⟨by simp [c6Tracks, qToUsize],
    c6_amended_ok_or_panic.2.2 c6Tracks 5 6 [0]
      (by simp [c6Tracks, qToUsize])⟩

/-! ## C5: zoomed-in waveform mode -/

/-- C5: when `samples_per_pixel < 1.0`, the per-track waveform has exactly
    `end_frame − start_frame` tuples, one per source frame, each of the form
    `(0, L_n, 0, R_n)` for stereo or `(0, s_n, 0, s_n)` for mono, where the
    payload entries are the raw samples of frame `n`. -/
theorem c5_zoomed (t : AudioTrack) (startTime endTime : ℚ) (numPixels : ℕ)
    (hch : t.channels = 1 ∨ t.channels = 2)
    (hnp : 0 < numPixels)
    (hlt : waveStartFrame t startTime < waveEndFrame t endTime)
    (hsp : ((waveEndFrame t endTime - waveStartFrame t startTime : ℕ) : ℚ) /
      (numPixels : ℚ) < 1) :
    (getTrackWaveform t startTime endTime numPixels).length =
      waveEndFrame t endTime - waveStartFrame t startTime ∧
    ∀ n < waveEndFrame t endTime - waveStartFrame t startTime,
      (getTrackWaveform t startTime endTime numPixels).getD n (0, 0, 0, 0) =
        if t.channels = 2 then
          (0, t.audioData.getD ((waveStartFrame t startTime + n) * 2) 0, 0,
            t.audioData.getD ((waveStartFrame t startTime + n) * 2 + 1) 0)
        else
          (0, t.audioData.getD (waveStartFrame t startTime + n) 0, 0,
            t.audioData.getD (waveStartFrame t startTime + n) 0) := by
  have hne : ¬(t.audioData = [] ∨ numPixels = 0) := by
    rintro (he | he)
    · rw [waveStartFrame, waveEndFrame, waveFrameCap, he] at hlt
      simp at hlt
    · omega
  have key : getTrackWaveform t startTime endTime numPixels =
      (List.range (waveEndFrame t endTime - waveStartFrame t startTime)).map
        (fun k => zoomedTuple t (waveStartFrame t startTime + k)) := by
    unfold getTrackWaveform
    rw [if_neg hne]
    rw [if_neg (by rw [waveStartFrame, waveEndFrame, waveFrameCap] at hlt; omega)]
    rw [if_pos (by rw [waveStartFrame, waveEndFrame, waveFrameCap] at hsp; exact hsp)]
    rfl
  rw [key]
  constructor
  · simp
  · intro n hn
    have hlen : n < ((List.range (waveEndFrame t endTime -
        waveStartFrame t startTime)).map
        (fun k => zoomedTuple t (waveStartFrame t startTime + k))).length := by
      simpa using hn
    rw [List.getD_eq_getElem _ _ hlen, List.getElem_map, List.getElem_range]
    -- now reduce zoomedTuple
    have hcap : waveEndFrame t endTime ≤ t.audioData.length / t.channels := by
      rw [waveEndFrame, waveFrameCap]
      omega
    rcases hch with h1 | h2
    · rw [if_neg (by omega)]
      unfold zoomedTuple
      rw [if_neg (by omega), if_pos h1, if_pos (by
        have := hcap
        rw [h1] at this
        simp at this
        omega)]
    · rw [if_pos h2]
      unfold zoomedTuple
      rw [if_pos h2, if_pos (by
        have h3 : waveStartFrame t startTime + n < t.audioData.length / 2 := by
          rw [h2] at hcap
          omega
        omega)]

/-- C5 witness: the theorem at a two-frame mono track, a [0, 2) second
    range at 1 Hz and 10000-like pixel excess (3 pixels > 2 frames). -/
theorem c5_zoomed_witness :
    (c5Track.channels = 1 ∨ c5Track.channels = 2) ∧ 0 < 3 ∧
    waveStartFrame c5Track 0 < waveEndFrame c5Track 2 ∧
    ((waveEndFrame c5Track 2 - waveStartFrame c5Track 0 : ℕ) : ℚ) /
      ((3 : ℕ) : ℚ) < 1 ∧
    ((getTrackWaveform c5Track 0 2 3).length =
      waveEndFrame c5Track 2 - waveStartFrame c5Track 0 ∧
    ∀ n < waveEndFrame c5Track 2 - waveStartFrame c5Track 0,
      (getTrackWaveform c5Track 0 2 3).getD n (0, 0, 0, 0) =
        if c5Track.channels = 2 then
          (0, c5Track.audioData.getD ((waveStartFrame c5Track 0 + n) * 2) 0, 0,
            c5Track.audioData.getD ((waveStartFrame c5Track 0 + n) * 2 + 1) 0)
        else
          (0, c5Track.audioData.getD (waveStartFrame c5Track 0 + n) 0, 0,
            c5Track.audioData.getD (waveStartFrame c5Track 0 + n) 0)) := by
  have hch : c5Track.channels = 1 ∨ c5Track.channels = 2 := Or.inl rfl
  have hframes : waveStartFrame c5Track 0 = 0 ∧ waveEndFrame c5Track 2 = 2 := by
    constructor <;> simp [waveStartFrame, waveEndFrame, waveFrameCap,
      qToUsize, c5Track]
  have hlt : waveStartFrame c5Track 0 < waveEndFrame c5Track 2 := by omega
  have hsp : ((waveEndFrame c5Track 2 - waveStartFrame c5Track 0 : ℕ) : ℚ) /
      ((3 : ℕ) : ℚ) < 1 := by
    rw [hframes.1, hframes.2]
    norm_num
  exact ⟨hch, by norm_num, hlt, hsp, c5_zoomed c5Track 0 2 3 hch (by norm_num)
    hlt hsp⟩

/-! ## C8: buffer-length invariant -/

/-- Divisibility gives a zero remainder (for every modulus, including 0). -/
theorem dvd_mod_zero {a b : ℕ} (h : a ∣ b) : b % a = 0 := by
  obtain ⟨c, rfl⟩ := h
  simp [Nat.mul_mod_right]

/-- Length of the frame-by-frame interleaving of `append_audio_buffer`. -/
theorem length_flatMap_range_map (n k : ℕ) (f : ℕ → ℕ → ℚ) :
    ((List.range n).flatMap (fun i => (List.range k).map (f i))).length =
      n * k := by
  induction n with
  | zero => simp
  | succ m ih =>
      rw [List.range_succ]
      simp only [List.flatMap_append, List.length_append, ih]
      simp [Nat.succ_mul]

/-- `append_audio_buffer` preserves divisibility by the channel count when
    the decoded buffer carries at least that many channels. -/
theorem appendAudioBuffer_dvd (acc : List ℚ) (b : DecodedBuffer)
    (channels : ℕ) (hacc : channels ∣ acc.length)
    (hb : channels ≤ b.bufChannels) :
    channels ∣ (appendAudioBuffer acc b channels).length := by
  unfold appendAudioBuffer
  rcases b with ⟨fmt, bc, frames, data⟩
  simp only at hb
  cases fmt
  case other => exact hacc
  all_goals
    simp only [List.length_append]
    rw [length_flatMap_range_map]
    rw [min_eq_left hb]
    exact Nat.dvd_add hacc (Dvd.intro_left frames rfl)

/-- `delete_region` always drains a whole number of frames from a track
    that satisfies the invariant. -/
theorem deleteRegionTrack_dvd (t : AudioTrack) (startTime endTime : ℚ)
    (h : t.channels ∣ t.audioData.length) :
    t.channels ∣ (deleteRegionTrack t startTime endTime).audioData.length := by
  simp only [deleteRegionTrack]
  split_ifs with hc
  · exact h
  · simp only [List.length_append, List.length_take, List.length_drop]
    push_neg at hc
    rw [min_eq_left (le_of_lt hc)]
    refine Nat.dvd_add (Dvd.intro_left _ rfl) (Nat.dvd_sub' h ?_)
    rcases le_total (qToUsize (endTime * (t.sampleRate : ℚ)) * t.channels)
      t.audioData.length with hle | hle
    · rw [min_eq_left hle]
      exact Dvd.intro_left _ rfl
    · rw [min_eq_right hle]
      exact h

/-- C8 counterexample: feeding a stereo track a decoded packet that carries
    only one channel makes `append_audio_buffer` push `min(2,1) = 1` sample
    for its frame, so the loaded buffer has odd length and violates
    `len(audio_data) % channels == 0`. -/
theorem c8_counterexample : (loadFileBuffer [c8Buf] 2).length % 2 = 1 := by
  simp [loadFileBuffer, appendAudioBuffer, c8Buf]
  rfl

/-- C8 amended: the invariant holds for the buffer built by `load_file`
    provided every decoded packet carries at least the track's channel count
    (which a well-behaved decoder does); a packet with fewer channels breaks
    it.  `delete_region` preserves the invariant unconditionally for every
    time range and index list, because the drained sample range is always a
    whole number of frames. -/
theorem c8_amended_invariant :
    (∀ (bufs : List DecodedBuffer) (channels : ℕ),
      (∀ b ∈ bufs, channels ≤ b.bufChannels) →
      (loadFileBuffer bufs channels).length % channels = 0) ∧
    (∀ (tracks : List AudioTrack) (startTime endTime : ℚ) (idxs : List ℕ)
      (ts : List AudioTrack),
      deleteRegion tracks startTime endTime idxs = Except.ok ts →
      (∀ tr ∈ tracks, tr.audioData.length % tr.channels = 0) →
      ∀ tr ∈ ts, tr.audioData.length % tr.channels = 0) := by
  constructor
  · intro bufs channels hb
    refine dvd_mod_zero ?_
    unfold loadFileBuffer
    have hgen : ∀ (l : List DecodedBuffer) (acc : List ℚ),
        (∀ b ∈ l, channels ≤ b.bufChannels) → channels ∣ acc.length →
        channels ∣ (l.foldl (fun acc2 b => appendAudioBuffer acc2 b channels)
          acc).length := by
      intro l
      induction l with
      | nil => intro acc _ hacc; simpa using hacc
      | cons b rest ih =>
          intro acc hl hacc
          simp only [List.foldl_cons]
          exact ih _ (fun x hx => hl x (by simp [hx]))
            (appendAudioBuffer_dvd acc b channels hacc (hl b (by simp)))
    exact hgen bufs [] hb (by simp)
  · intro tracks startTime endTime idxs ts hok hinv
    unfold deleteRegion at hok
    have hts := Except.ok.inj hok
    subst hts
    have hgen : ∀ (l : List ℕ) (cur : List AudioTrack),
        (∀ tr ∈ cur, tr.audioData.length % tr.channels = 0) →
        ∀ tr ∈ l.foldl (deleteRegionStep startTime endTime) cur,
          tr.audioData.length % tr.channels = 0 := by
      intro l
      induction l with
      | nil => intro cur hcur; simpa using hcur
      | cons i rest ih =>
          intro cur hcur
          simp only [List.foldl_cons]
          refine ih _ ?_
          intro tr htr
          unfold deleteRegionStep at htr
          by_cases hil : i < cur.length
          · rw [dif_pos hil] at htr
            rcases List.mem_or_eq_of_mem_set htr with hmem | heq
            · exact hcur tr hmem
            · subst heq
              have hget := hcur (cur.get ⟨i, hil⟩) (List.get_mem cur i hil)
              have hch : (deleteRegionTrack (cur.get ⟨i, hil⟩) startTime
                  endTime).channels = (cur.get ⟨i, hil⟩).channels := by
                simp only [deleteRegionTrack]
                split_ifs <;> rfl
              rw [hch]
              exact dvd_mod_zero (deleteRegionTrack_dvd _ _ _
                (Nat.dvd_of_mod_eq_zero hget))
          · rw [dif_neg hil] at htr
            exact hcur tr htr
    exact hgen idxs tracks hinv

/-- C8 witness: the load conjunct of the amended theorem at a mono packet
    loaded into a mono track. -/
theorem c8_amended_invariant_witness :
    (∀ b ∈ [c8Buf], 1 ≤ DecodedBuffer.bufChannels b) ∧
    (loadFileBuffer [c8Buf] 1).length % 1 = 0 :=
  ⟨by simp [c8Buf], c8_amended_invariant.1 [c8Buf] 1 (by simp [c8Buf])⟩

/-! ## C9: Rice parameter bound and unreachable escape path -/

/-- The estimated Rice parameter is capped at 14 by the final `min`. -/
theorem calculateRiceParameter_le (residual : List ℤ) :
    calculateRiceParameter residual ≤ 14 := by
  simp only [calculateRiceParameter]
  split_ifs <;> simp [inf_le_right]

/-- Each partition step takes the Rice branch: the escape guard
    `rice_param > 14` can never fire. -/
theorem encodePartition_eq_riceOnly (residual : List ℤ)
    (defaultPartitionSamples predictorOrder : ℕ) :
    encodePartition residual defaultPartitionSamples predictorOrder =
      encodePartitionRiceOnly residual defaultPartitionSamples
        predictorOrder := by
  funext acc partitionIdx
  simp only [encodePartition, encodePartitionRiceOnly]
  split_ifs
  all_goals
    first
      | rfl
      | (rename_i h
         exact absurd h (Nat.not_lt.mpr (calculateRiceParameter_le _)))

/-- C9: `calculate_rice_parameter` always returns a value in [0, 14], so the
    escape branch of `encode_residual` is unreachable and every partition is
    written as a 4-bit Rice parameter followed by Rice-coded residuals. -/
theorem c9_no_escape :
    (∀ residual : List ℤ, calculateRiceParameter residual ≤ 14) ∧
    (∀ (w : BitWriter) (residual : List ℤ)
      (predictorOrder blockSize level : ℕ),
      encodeResidual w residual predictorOrder blockSize level =
        encodeResidualRiceOnly w residual predictorOrder blockSize level) := by
  refine ⟨calculateRiceParameter_le, ?_⟩
  intro w residual predictorOrder blockSize level
  unfold encodeResidual encodeResidualRiceOnly
  simp only [encodePartition_eq_riceOnly]

/-! ## C4: mono_to_stereo export mix -/

/-- `writePairFrame` preserves the buffer length. -/
theorem writePairFrame_length (st : ℚ) (l r : AudioTrack) (b : List ℚ)
    (k : ℕ) : (writePairFrame st l r b k).length = b.length := by
  simp only [writePairFrame]
  split_ifs <;> simp

/-- `writePair` preserves the buffer length. -/
theorem writePair_length (tf : ℕ) (st : ℚ) (l r : AudioTrack)
    (buf : List ℚ) : (writePair tf st l r buf).length = buf.length := by
  unfold writePair
  induction (List.range tf) generalizing buf with
  | nil => rfl
  | cons k rest ih =>
      simp only [List.foldl_cons]
      rw [ih, writePairFrame_length]

/-- A frame write does not touch slots at or above `2·frameIdx + 2`. -/
theorem writePairFrame_getD_ge (st : ℚ) (l r : AudioTrack) (b : List ℚ)
    (k j : ℕ) (hj : 2 * k + 2 ≤ j) :
    (writePairFrame st l r b k).getD j 0 = b.getD j 0 := by
  simp only [writePairFrame]
  split_ifs <;>
    simp only [List.getD_eq_getElem?_getD] <;>
    rw [List.getElem?_set_ne (by omega)] <;>
    first
      | rfl
      | rw [List.getElem?_set_ne (by omega)]

/-- A frame write does not touch slots below `2·frameIdx` either. -/
theorem writePairFrame_getD_lt (st : ℚ) (l r : AudioTrack) (b : List ℚ)
    (k j : ℕ) (hj : j < 2 * k) :
    (writePairFrame st l r b k).getD j 0 = b.getD j 0 := by
  simp only [writePairFrame]
  split_ifs <;>
    simp only [List.getD_eq_getElem?_getD] <;>
    rw [List.getElem?_set_ne (by omega)] <;>
    first
      | rfl
      | rw [List.getElem?_set_ne (by omega)]

/-- The prefix of the frame loop (frames `< n`) leaves slots `≥ 2n`
    untouched. -/
theorem writePair_getD_ge (st : ℚ) (l r : AudioTrack) :
    ∀ (n : ℕ) (buf : List ℚ) (j : ℕ), 2 * n ≤ j →
    ((List.range n).foldl (writePairFrame st l r) buf).getD j 0 =
      buf.getD j 0 := by
  intro n
  induction n with
  | zero => intro buf j hj; rfl
  | succ m ih =>
      intro buf j hj
      rw [List.range_succ, List.foldl_append, List.foldl_cons, List.foldl_nil]
      rw [writePairFrame_getD_ge _ _ _ _ _ _ (by omega)]
      exact ih buf j (by omega)

/-- Pointwise value of `writePair`: the left slot of frame `f` holds the
    left track's sample when it covers the frame, and the previous buffer
    value otherwise; likewise on the right. -/
theorem writePair_getD (st : ℚ) (l r : AudioTrack) (tf : ℕ) (buf : List ℚ)
    (f : ℕ) (hf : f < tf) (hlen : tf * 2 ≤ buf.length) :
    ((writePair tf st l r buf).getD (f * 2) 0 =
      (if qToUsize (st * (l.sampleRate : ℚ)) + f < l.audioData.length then
        l.audioData.getD (qToUsize (st * (l.sampleRate : ℚ)) + f) 0
      else buf.getD (f * 2) 0)) ∧
    ((writePair tf st l r buf).getD (f * 2 + 1) 0 =
      (if qToUsize (st * (r.sampleRate : ℚ)) + f < r.audioData.length then
        r.audioData.getD (qToUsize (st * (r.sampleRate : ℚ)) + f) 0
      else buf.getD (f * 2 + 1) 0)) := by
  unfold writePair
  induction tf generalizing buf with
  | zero => omega
  | succ m ih =>
      rcases Nat.lt_or_ge f m with hfm | hfm
      · -- the final frame m does not touch slots 2f, 2f+1
        rw [List.range_succ, List.foldl_append, List.foldl_cons, List.foldl_nil]
        rw [writePairFrame_getD_lt st l r _ m (f * 2) (by omega),
          writePairFrame_getD_lt st l r _ m (f * 2 + 1) (by omega)]
        exact ih buf hfm (by omega)
      · -- f = m: the last write decides the slots
        have hfe : f = m := by omega
        subst hfe
        rw [List.range_succ, List.foldl_append, List.foldl_cons, List.foldl_nil]
        have hprev : ∀ j, 2 * f ≤ j →
            ((List.range f).foldl (writePairFrame st l r) buf).getD j 0 =
              buf.getD j 0 := fun j hj => writePair_getD_ge st l r f buf j hj
        have hplen : ((List.range f).foldl (writePairFrame st l r) buf).length =
            buf.length := by
          have h := writePair_length f st l r buf
          unfold writePair at h
          exact h
        simp only [writePairFrame]
        split_ifs with hcr hcl hcl
        · refine ⟨?_, ?_⟩
          · simp only [List.getD_eq_getElem?_getD]
            rw [List.getElem?_set_ne (by omega),
              List.getElem?_set_eq (by rw [hplen]; omega)]
            rfl
          · simp only [List.getD_eq_getElem?_getD]
            rw [List.getElem?_set_eq (by rw [List.length_set, hplen]; omega)]
            rfl
        · refine ⟨?_, ?_⟩
          · simp only [List.getD_eq_getElem?_getD] at hprev ⊢
            rw [List.getElem?_set_ne (by omega)]
            exact hprev (f * 2) (by omega)
          · simp only [List.getD_eq_getElem?_getD]
            rw [List.getElem?_set_eq (by rw [hplen]; omega)]
            rfl
        · refine ⟨?_, ?_⟩
          · simp only [List.getD_eq_getElem?_getD]
            rw [List.getElem?_set_eq (by rw [hplen]; omega)]
            rfl
          · simp only [List.getD_eq_getElem?_getD] at hprev ⊢
            rw [List.getElem?_set_ne (by omega)]
            exact hprev (f * 2 + 1) (by omega)
        · exact ⟨hprev (f * 2) (by omega), hprev (f * 2 + 1) (by omega)⟩

/-- `mixPairs` preserves the buffer length. -/
theorem mixPairs_foldl_length (st : ℚ) (tf : ℕ) :
    ∀ (pairs : List (AudioTrack × AudioTrack)) (buf : List ℚ),
    (pairs.foldl (fun b pr => writePair tf st pr.1 pr.2 b) buf).length =
      buf.length := by
  intro pairs
  induction pairs with
  | nil => intro buf; rfl
  | cons pr rest ih =>
      intro buf
      simp only [List.foldl_cons]
      rw [ih, writePair_length]

/-- Pointwise value of the pair loop: the fold over buffers projects to a
    fold over values, keeping the previous value where a pair's track does
    not cover the frame. -/
theorem mixPairs_foldl_getD (st : ℚ) (tf : ℕ) :
    ∀ (pairs : List (AudioTrack × AudioTrack)) (buf : List ℚ),
    tf * 2 ≤ buf.length → ∀ f, f < tf →
    ((pairs.foldl (fun b pr => writePair tf st pr.1 pr.2 b) buf).getD
        (f * 2) 0 =
      pairs.foldl (fun acc pr =>
        if qToUsize (st * (pr.1.sampleRate : ℚ)) + f <
            pr.1.audioData.length then
          pr.1.audioData.getD (qToUsize (st * (pr.1.sampleRate : ℚ)) + f) 0
        else acc) (buf.getD (f * 2) 0)) ∧
    ((pairs.foldl (fun b pr => writePair tf st pr.1 pr.2 b) buf).getD
        (f * 2 + 1) 0 =
      pairs.foldl (fun acc pr =>
        if qToUsize (st * (pr.2.sampleRate : ℚ)) + f <
            pr.2.audioData.length then
          pr.2.audioData.getD (qToUsize (st * (pr.2.sampleRate : ℚ)) + f) 0
        else acc) (buf.getD (f * 2 + 1) 0)) := by
  intro pairs
  induction pairs with
  | nil => intro buf hlen f hf; exact ⟨rfl, rfl⟩
  | cons pr rest ih =>
      intro buf hlen f hf
      simp only [List.foldl_cons]
      have hwp := writePair_getD st pr.1 pr.2 tf buf f hf hlen
      have hlen2 : tf * 2 ≤ (writePair tf st pr.1 pr.2 buf).length := by
        rw [writePair_length]
        exact hlen
      obtain ⟨ih1, ih2⟩ := ih (writePair tf st pr.1 pr.2 buf) hlen2 f hf
      rw [ih1, ih2, hwp.1, hwp.2]
      exact ⟨rfl, rfl⟩

/-- C4 amended: pairs are processed in insertion order and each pair assigns
    (not mixes) its in-range samples into L/R of the single stereo output,
    so a later pair overwrites an earlier one wherever its track still has
    data; the output has `total_frames` frames, and each slot holds the
    sample of the last covering pair (0.0 when no pair covers it).
    Stereo tracks and an unpaired trailing mono track contribute nothing
    (they never enter `monoPairs`). -/
theorem c4_amended_last_pair_wins (tracks : List AudioTrack)
    (startTime endTime : ℚ) (hne : tracks ≠ [])
    (htf : 0 < m2sTotalFrames tracks startTime endTime) :
    ((mixTracksForExportMonoToStereo tracks startTime endTime).1.length =
      m2sTotalFrames tracks startTime endTime * 2) ∧
    ∀ f < m2sTotalFrames tracks startTime endTime,
      (mixTracksForExportMonoToStereo tracks startTime endTime).1.getD
        (f * 2) 0 = lastPairSampleL startTime (monoPairs tracks) f ∧
      (mixTracksForExportMonoToStereo tracks startTime endTime).1.getD
        (f * 2 + 1) 0 = lastPairSampleR startTime (monoPairs tracks) f := by
  rcases tracks with _ | ⟨t0, rest⟩
  · exact absurd rfl hne
  · simp only [mixTracksForExportMonoToStereo, m2sTotalFrames] at htf ⊢
    rw [if_neg (by omega)]
    simp only [mixPairs]
    set tf := qToUsize (endTime * (t0.sampleRate : ℚ)) -
      qToUsize (startTime * (t0.sampleRate : ℚ)) with htfdef
    have hlen0 : tf * 2 ≤ (List.replicate (tf * 2) (0:ℚ)).length := by simp
    have hget0 : ∀ j, (List.replicate (tf * 2) (0:ℚ)).getD j 0 = 0 := by
      intro j
      simp only [List.getD_eq_getElem?_getD, List.getElem?_replicate]
      split_ifs <;> rfl
    refine ⟨by rw [mixPairs_foldl_length]; simp, ?_⟩
    intro f hf
    obtain ⟨h1, h2⟩ := mixPairs_foldl_getD startTime tf
      (monoPairs (t0 :: rest)) (List.replicate (tf * 2) 0) hlen0 f hf
    rw [h1, h2, hget0, hget0]
    exact ⟨rfl, rfl⟩

/-- C4 counterexample: with four mono tracks (two pairs), the claim says
    pair (0,1)'s first track fills the left channel; in the code pair (2,3)
    overwrites it, so the left channel holds 1/4 (track 2's sample), not 1/2
    (track 0's sample). -/
theorem c4_counterexample :
    (mixTracksForExportMonoToStereo c4Tracks 0 1).1 = [1/4, 0] ∧
    (c4Tracks.getD 0 ⟨[], 0, 0⟩).audioData.getD 0 0 = 1/2 ∧
    ((1 : ℚ)/4 ≠ 1/2) := by
  refine ⟨?_, by simp [c4Tracks], by norm_num⟩
  have hq0 : qToUsize ((0:ℚ) * ((1:ℕ) : ℚ)) = 0 := by
    simp [qToUsize]
  have hq1 : qToUsize ((1:ℚ) * ((1:ℕ) : ℚ)) = 1 := by
    simp [qToUsize]
  simp only [mixTracksForExportMonoToStereo, c4Tracks, hq0, hq1]
  norm_num
  simp [monoPairs, mixPairs, writePair, writePairFrame, c4Tracks, hq0,
    List.filter, List.range_succ]
  simp [show qToUsize 0 = 0 by simp [qToUsize]]

/-- C4 witness: the amended theorem at the four-track counterexample store
    over one frame. -/
theorem c4_amended_last_pair_wins_witness :
    c4Tracks ≠ [] ∧ 0 < m2sTotalFrames c4Tracks 0 1 ∧
    (((mixTracksForExportMonoToStereo c4Tracks 0 1).1.length =
      m2sTotalFrames c4Tracks 0 1 * 2) ∧
    ∀ f < m2sTotalFrames c4Tracks 0 1,
      (mixTracksForExportMonoToStereo c4Tracks 0 1).1.getD (f * 2) 0 =
        lastPairSampleL 0 (monoPairs c4Tracks) f ∧
      (mixTracksForExportMonoToStereo c4Tracks 0 1).1.getD (f * 2 + 1) 0 =
        lastPairSampleR 0 (monoPairs c4Tracks) f) :=
  ⟨by simp [c4Tracks], by simp [m2sTotalFrames, c4Tracks, qToUsize],
    c4_amended_last_pair_wins c4Tracks 0 1 (by simp [c4Tracks])
      (by simp [m2sTotalFrames, c4Tracks, qToUsize])⟩

/-! ## C3 infrastructure: bit-writer arithmetic and buffer growth -/

/-- Disjoint bitwise or is addition: or-ing `k`-bit-shifted data with a
    value below `2^k`. -/
theorem lor_eq_add (a b k : ℕ) (hb : b < 2 ^ k) :
    (a * 2 ^ k) ||| b = a * 2 ^ k + b := by
  apply Nat.eq_of_testBit_eq
  intro i
  rw [Nat.testBit_lor]
  have h0 : (a * 2 ^ k).testBit i =
      if i < k then false else a.testBit (i - k) := by
    have h := Nat.testBit_mul_pow_two_add a (b := 0) (i := k) (by positivity) i
    rw [Nat.add_zero, Nat.mul_comm] at h
    simpa using h
  have h1 : (a * 2 ^ k + b).testBit i =
      if i < k then b.testBit i else a.testBit (i - k) := by
    have h := Nat.testBit_mul_pow_two_add a hb i
    rwa [Nat.mul_comm (2 ^ k) a] at h
  rw [h0, h1]
  rcases Nat.lt_or_ge i k with hik | hik
  · simp [hik]
  · have h3 : b.testBit i = false :=
      Nat.testBit_lt_two_pow (lt_of_lt_of_le hb (Nat.pow_le_pow_right
        (by norm_num) hik))
    simp [Nat.not_lt.mpr hik, h3]

theorem and255 (x : ℕ) : x &&& 255 = x % 256 := by
  have h := Nat.and_pow_two_sub_one_eq_mod x 8
  norm_num at h
  exact h

theorem and15 (x : ℕ) : x &&& 15 = x % 16 := by
  have h := Nat.and_pow_two_sub_one_eq_mod x 4
  norm_num at h
  exact h

theorem and7 (x : ℕ) : x &&& 7 = x % 8 := by
  have h := Nat.and_pow_two_sub_one_eq_mod x 3
  norm_num at h
  exact h

theorem writeByte_aligned (B : List ℕ) (v : ℕ) :
    writeBits ⟨B, 0, 0⟩ v 8 = ⟨B ++ [v % 256], 0, 0⟩ := by
  simp [writeBits, writeBitsAux, and255]

theorem foldl_writeByte_aligned (l : List ℕ) : ∀ (B : List ℕ),
    l.foldl writeByte ⟨B, 0, 0⟩ =
      ⟨B ++ l.map (fun b => b % 256), 0, 0⟩ := by
  induction l with
  | nil => intro B; simp
  | cons b rest ih =>
      intro B
      simp only [List.foldl_cons, List.map_cons, writeByte]
      rw [writeByte_aligned, ih]
      simp

/-- `write_bits` only appends to the completed-byte buffer. -/
theorem writeBitsAux_buffer (fuel : ℕ) : ∀ (w : BitWriter) (v rem : ℕ),
    ∃ t, (writeBitsAux fuel w v rem).buffer = w.buffer ++ t := by
  induction fuel with
  | zero => intro w v rem; exact ⟨[], by simp [writeBitsAux]⟩
  | succ f ih =>
      intro w v rem
      simp only [writeBitsAux]
      split_ifs with h0
      · exact ⟨[], by simp⟩
      all_goals
        obtain ⟨t, ht⟩ := ih _ v _
      all_goals
        exact ⟨_, by
          rw [ht]
          all_goals first | rfl | (dsimp only; rw [List.append_assoc])⟩

theorem writeBits_buffer (w : BitWriter) (v b : ℕ) :
    ∃ t, (writeBits w v b).buffer = w.buffer ++ t :=
  writeBitsAux_buffer b w v b

theorem byteAlign_buffer (w : BitWriter) :
    ∃ t, (byteAlign w).buffer = w.buffer ++ t := by
  unfold byteAlign
  split_ifs
  · exact ⟨[w.currentByte], rfl⟩
  · exact ⟨[], by simp⟩

/-- Composing buffer-appending steps over a fold. -/
theorem foldl_buffer {α : Type} (g : BitWriter → α → BitWriter)
    (hg : ∀ w a, ∃ t, (g w a).buffer = w.buffer ++ t) :
    ∀ (l : List α) (w : BitWriter),
    ∃ t, (l.foldl g w).buffer = w.buffer ++ t := by
  intro l
  induction l with
  | nil => intro w; exact ⟨[], by simp⟩
  | cons a rest ih =>
      intro w
      obtain ⟨t1, ht1⟩ := hg w a
      obtain ⟨t2, ht2⟩ := ih (g w a)
      exact ⟨t1 ++ t2, by rw [List.foldl_cons, ht2, ht1, List.append_assoc]⟩

theorem writeUnary_buffer (w : BitWriter) (v : ℕ) :
    ∃ t, (writeUnary w v).buffer = w.buffer ++ t := by
  unfold writeUnary
  obtain ⟨t1, ht1⟩ := foldl_buffer (fun w2 _ => writeBits w2 0 1)
    (fun w2 _ => writeBits_buffer w2 0 1) (List.range v) w
  obtain ⟨t2, ht2⟩ := writeBits_buffer ((List.range v).foldl
    (fun w2 _ => writeBits w2 0 1) w) 1 1
  exact ⟨t1 ++ t2, by rw [ht2, ht1, List.append_assoc]⟩

theorem encodeRicePartition_buffer (w : BitWriter) (residual : List ℤ)
    (p : ℕ) : ∃ t, (encodeRicePartition w residual p).buffer =
      w.buffer ++ t := by
  unfold encodeRicePartition
  refine foldl_buffer _ ?_ residual w
  intro w2 s
  obtain ⟨t1, ht1⟩ := writeUnary_buffer w2 (zigzag s >>> p)
  split_ifs
  · obtain ⟨t2, ht2⟩ := writeBits_buffer (writeUnary w2 (zigzag s >>> p))
      (zigzag s &&& (1 <<< p - 1)) p
    exact ⟨t1 ++ t2, by rw [ht2, ht1, List.append_assoc]⟩
  · exact ⟨t1, ht1⟩

/-- Buffer extension is transitive. -/
theorem buffer_trans {w1 w2 w3 : BitWriter}
    (h12 : ∃ t, w2.buffer = w1.buffer ++ t)
    (h23 : ∃ t, w3.buffer = w2.buffer ++ t) :
    ∃ t, w3.buffer = w1.buffer ++ t := by
  obtain ⟨a, ha⟩ := h12
  obtain ⟨b, hb⟩ := h23
  exact ⟨a ++ b, by rw [hb, ha, List.append_assoc]⟩

theorem encodePartition_buffer (residual : List ℤ) (dps po : ℕ)
    (acc : BitWriter × ℕ) (i : ℕ) :
    ∃ t, ((encodePartition residual dps po acc i).1).buffer =
      acc.1.buffer ++ t := by
  simp only [encodePartition]
  by_cases hps : (if i = 0 then dps - po else dps) = 0
  · rw [if_pos hps]
    exact ⟨[], by simp⟩
  · rw [if_neg hps]
    by_cases hesc : 14 < calculateRiceParameter
        ((residual.drop acc.2).take (if i = 0 then dps - po else dps))
    · rw [if_pos hesc]
      dsimp only
      exact buffer_trans (writeBits_buffer acc.1 0xF 4)
        (buffer_trans (writeBits_buffer _ _ 5)
          (foldl_buffer _ (fun w2 s => writeBits_buffer w2 _ _) _ _))
    · rw [if_neg hesc]
      dsimp only
      exact buffer_trans (writeBits_buffer acc.1 _ 4)
        (encodeRicePartition_buffer _ _ _)

theorem foldl_encodePartition_buffer (residual : List ℤ) (dps po : ℕ) :
    ∀ (l : List ℕ) (acc : BitWriter × ℕ),
    ∃ t, ((l.foldl (encodePartition residual dps po) acc).1).buffer =
      acc.1.buffer ++ t := by
  intro l
  induction l with
  | nil => intro acc; exact ⟨[], by simp⟩
  | cons i rest ih =>
      intro acc
      simp only [List.foldl_cons]
      exact buffer_trans (encodePartition_buffer residual dps po acc i) (ih _)

theorem encodeResidual_buffer (w : BitWriter) (residual : List ℤ)
    (po bs lvl : ℕ) : ∃ t, (encodeResidual w residual po bs lvl).buffer =
      w.buffer ++ t := by
  unfold encodeResidual
  dsimp only
  exact buffer_trans (writeBits_buffer w 0 2)
    (buffer_trans (writeBits_buffer _ _ 4)
      (foldl_encodePartition_buffer residual _ po _ _))

theorem writeByte_buffer (w : BitWriter) (b : ℕ) :
    ∃ t, (writeByte w b).buffer = w.buffer ++ t :=
  writeBits_buffer w b 8

theorem writeUtf8Number_buffer (w : BitWriter) (v : ℕ) :
    ∃ t, (writeUtf8Number w v).buffer = w.buffer ++ t := by
  unfold writeUtf8Number
  split_ifs
  all_goals
    repeat refine buffer_trans ?_ (writeByte_buffer _ _)
  all_goals
    exact ⟨[], (List.append_nil _).symm⟩

theorem encodeSubframe_buffer (w : BitWriter) (samples : List ℤ)
    (bps lvl : ℕ) : ∃ t, (encodeSubframe w samples bps lvl).buffer =
      w.buffer ++ t := by
  unfold encodeSubframe
  dsimp only
  by_cases hpo : subframePredictorOrder samples.length lvl = 0
  · rw [if_pos hpo, if_pos hpo]
    exact buffer_trans (writeBits_buffer w 0 1)
      (buffer_trans (writeBits_buffer _ 1 6)
        (buffer_trans (writeBits_buffer _ 0 1)
          (foldl_buffer _ (fun w2 s => writeBits_buffer w2 _ _) samples _)))
  · rw [if_neg hpo, if_neg hpo]
    exact buffer_trans (writeBits_buffer w 0 1)
      (buffer_trans (writeBits_buffer _ _ 6)
        (buffer_trans (writeBits_buffer _ 0 1)
          (buffer_trans
            (foldl_buffer _ (fun w2 i => writeBits_buffer w2 _ _) _ _)
            (encodeResidual_buffer _ _ _ _ _))))

theorem encodeFrame_buffer (w : BitWriter) (samples : List ℤ)
    (ch rate bps fn bs lvl : ℕ) :
    ∃ t, (encodeFrame w samples ch rate bps fn bs lvl).buffer =
      w.buffer ++ t := by
  unfold encodeFrame
  dsimp only
  have h1 := writeBits_buffer w 0x3FFE 14
  generalize writeBits w 0x3FFE 14 = w1 at h1 ⊢
  have h2 := buffer_trans h1 (writeBits_buffer w1 0 1)
  generalize writeBits w1 0 1 = w2 at h2 ⊢
  have h3 := buffer_trans h2 (writeBits_buffer w2 0 1)
  generalize writeBits w2 0 1 = w3 at h3 ⊢
  have h4 := buffer_trans h3 (writeBits_buffer w3 (blockSizeBitsFor bs) 4)
  generalize writeBits w3 (blockSizeBitsFor bs) 4 = w4 at h4 ⊢
  have h5 := buffer_trans h4 (writeBits_buffer w4 (sampleRateBitsFor rate) 4)
  generalize writeBits w4 (sampleRateBitsFor rate) 4 = w5 at h5 ⊢
  have h6 := buffer_trans h5 (writeBits_buffer w5 (channelBitsFor ch) 4)
  generalize writeBits w5 (channelBitsFor ch) 4 = w6 at h6 ⊢
  have h7 := buffer_trans h6 (writeBits_buffer w6 (sampleSizeBitsFor bps) 3)
  generalize writeBits w6 (sampleSizeBitsFor bps) 3 = w7 at h7 ⊢
  have h8 := buffer_trans h7 (writeBits_buffer w7 0 1)
  generalize writeBits w7 0 1 = w8 at h8 ⊢
  have h9 := buffer_trans h8 (writeUtf8Number_buffer w8 fn)
  generalize writeUtf8Number w8 fn = w9 at h9 ⊢
  have h10 : ∃ t, (if blockSizeBitsFor bs = 6 then
      writeByte w9 ((bs - 1) % 256)
    else if blockSizeBitsFor bs = 7 then writeBits w9 (bs - 1) 16
    else w9).buffer = w.buffer ++ t := by
    split_ifs
    · exact buffer_trans h9 (writeByte_buffer w9 _)
    · exact buffer_trans h9 (writeBits_buffer w9 _ 16)
    · exact h9
  generalize (if blockSizeBitsFor bs = 6 then
      writeByte w9 ((bs - 1) % 256)
    else if blockSizeBitsFor bs = 7 then writeBits w9 (bs - 1) 16
    else w9) = w10 at h10 ⊢
  have h11 := buffer_trans h10 (writeByte_buffer w10
    (crc8 (List.drop w.buffer.length w10.buffer ++
      (if 0 < w10.bitCount then [w10.currentByte] else []))))
  generalize writeByte w10 (crc8 (List.drop w.buffer.length w10.buffer ++
    (if 0 < w10.bitCount then [w10.currentByte] else []))) = w11 at h11 ⊢
  have h12 := buffer_trans h11 (foldl_buffer
    (fun w2 ch2 => encodeSubframe w2 (deinterleave samples ch bs ch2) bps lvl)
    (fun w2 ch2 => encodeSubframe_buffer w2 _ bps lvl) (List.range ch) w11)
  generalize (List.range ch).foldl
    (fun w2 ch2 => encodeSubframe w2 (deinterleave samples ch bs ch2) bps lvl)
    w11 = w12 at h12 ⊢
  have h13 := buffer_trans h12 (byteAlign_buffer w12)
  generalize byteAlign w12 = w13 at h13 ⊢
  exact buffer_trans h13 (writeBits_buffer w13 _ 16)

theorem encodeFrames_buffer (fuel : ℕ) :
    ∀ (w : BitWriter) (rem : List ℤ) (ch rate bps fn bs lvl : ℕ),
    ∃ t, (encodeFrames fuel w rem ch rate bps fn bs lvl).buffer =
      w.buffer ++ t := by
  induction fuel with
  | zero =>
      intro w rem ch rate bps fn bs lvl
      exact ⟨[], by simp [encodeFrames]⟩
  | succ f ih =>
      intro w rem ch rate bps fn bs lvl
      simp only [encodeFrames]
      split_ifs
      · exact ⟨[], by simp⟩
      · exact ⟨[], by simp⟩
      · exact buffer_trans
          (encodeFrame_buffer w _ ch rate bps fn _ lvl)
          (ih _ _ ch rate bps (fn + 1) bs lvl)

theorem lor_rate_ch (x y : ℕ) :
    (x % 16) <<< 4 ||| (y % 8) <<< 1 = x % 16 * 16 + y % 8 * 2 := by
  rw [Nat.shiftLeft_eq, Nat.shiftLeft_eq]
  norm_num
  have h := lor_eq_add (x % 16) (y % 8 * 2) 4 (by omega)
  norm_num at h
  exact h

theorem lor_240_nibble (y : ℕ) : 240 ||| y % 16 = 240 + y % 16 := by
  have h := lor_eq_add 15 (y % 16) 4 (by omega)
  norm_num at h
  exact h

/-- The streaminfo block bytes, for the encoder's instantiation
    (bits-per-sample 16, unknown frame sizes). -/
theorem writeStreaminfo_bytes (B : List ℕ) (mbs rate ch total : ℕ)
    (md5 : List ℕ) :
    writeStreaminfo ⟨B, 0, 0⟩ mbs mbs 0 0 rate ch 16 total md5 =
      ⟨B ++ [128, 0, 0, 34,
        mbs / 256 % 256, mbs % 256, mbs / 256 % 256, mbs % 256,
        0, 0, 0, 0, 0, 0,
        rate / 4096 % 256, rate / 16 % 256,
        rate % 16 * 16 + (ch - 1) % 8 * 2,
        240 + total / 4294967296 % 16,
        total / 16777216 % 256, total / 65536 % 256, total / 256 % 256,
        total % 256] ++ md5.map (fun b => b % 256), 0, 0⟩ := by
  unfold writeStreaminfo
  simp [writeBits, writeBitsAux, and255, and15, and7,
    Nat.shiftRight_eq_div_pow, lor_rate_ch, lor_240_nibble,
    foldl_writeByte_aligned]

theorem computeMd5_length (s : List ℤ) : (computeMd5 s).length = 16 := by
  simp [computeMd5, md5Finalize, leBytes4]

theorem computeMd5_map_mod (s : List ℤ) :
    (computeMd5 s).map (fun b => b % 256) = computeMd5 s := by
  simp [computeMd5, md5Finalize, leBytes4, Nat.mod_mod_of_dvd]

theorem chosenBlockSize_le (level spc : ℕ) :
    chosenBlockSize level spc ≤ 4096 := by
  unfold chosenBlockSize blockSizeTable
  split <;> omega


/-! ## C3: stream header layout -/

/-- `getBytes` of the frame loop extends the initial writer's buffer. -/
theorem getBytes_encodeFrames_prefix (fuel : ℕ) (w : BitWriter)
    (rem : List ℤ) (ch rate bps fn bs lvl : ℕ) :
    ∃ t, getBytes (encodeFrames fuel w rem ch rate bps fn bs lvl) =
      w.buffer ++ t := by
  obtain ⟨t, ht⟩ := encodeFrames_buffer fuel w rem ch rate bps fn bs lvl
  refine ⟨t ++ (if 0 < (encodeFrames fuel w rem ch rate bps fn bs lvl).bitCount
    then [(encodeFrames fuel w rem ch rate bps fn bs lvl).currentByte]
    else []), ?_⟩
  simp [getBytes, ht]

/-- C3: on valid input the encoder output starts with the `fLaC` magic,
    a 34-byte last-block STREAMINFO header whose fields hold the chosen
    block size (min = max), zero frame sizes, the sample rate, channel
    count, 16 bits per sample, the total inter-channel sample count, and
    the MD5 of the converted 16-bit samples. -/
theorem c3_magic_streaminfo (samples : List ℚ) (sampleRate channels level : ℕ)
    (hch1 : 1 ≤ channels) (hch8 : channels ≤ 8)
    (hrate : sampleRate < 2 ^ 20)
    (hspc : 16 ≤ samples.length / channels)
    (hlevel : level ≤ 8)
    (htot : samples.length / channels < 2 ^ 36) :
    ∃ out, encodeFlacWithLevel samples sampleRate channels level =
        Except.ok out ∧
      out.take 4 = [0x66, 0x4C, 0x61, 0x43] ∧
      (out.drop 4).take 4 = [0x80, 0x00, 0x00, 34] ∧
      (out.drop 8).take 4 =
        [chosenBlockSize level (samples.length / channels) / 256,
         chosenBlockSize level (samples.length / channels) % 256,
         chosenBlockSize level (samples.length / channels) / 256,
         chosenBlockSize level (samples.length / channels) % 256] ∧
      (out.drop 12).take 6 = [0, 0, 0, 0, 0, 0] ∧
      out.getD 18 0 * 4096 + out.getD 19 0 * 16 + out.getD 20 0 / 16 =
        sampleRate ∧
      out.getD 20 0 / 2 % 8 = channels - 1 ∧
      out.getD 20 0 % 2 * 16 + out.getD 21 0 / 16 = 15 ∧
      out.getD 21 0 % 16 * 4294967296 + out.getD 22 0 * 16777216 +
        out.getD 23 0 * 65536 + out.getD 24 0 * 256 + out.getD 25 0 =
        samples.length / channels ∧
      (out.drop 26).take 16 = computeMd5 (samples.map flacF32ToI16) := by
  have hlen : (samples.map flacF32ToI16).length = samples.length :=
    List.length_map _ _
  have hok : encodeFlacWithLevel samples sampleRate channels level =
      Except.ok (getBytes (encodeFrames ((samples.map flacF32ToI16).length + 1)
        (writeStreaminfo (writeBytes BitWriter.new [0x66, 0x4C, 0x61, 0x43])
          (chosenBlockSize level
            ((samples.map flacF32ToI16).length / channels) % 2 ^ 16)
          (chosenBlockSize level
            ((samples.map flacF32ToI16).length / channels) % 2 ^ 16)
          0 0 sampleRate channels 16
          ((samples.map flacF32ToI16).length / channels)
          (computeMd5 (samples.map flacF32ToI16)))
        (samples.map flacF32ToI16) channels sampleRate 16 0
        (chosenBlockSize level ((samples.map flacF32ToI16).length / channels))
        level)) := by
    unfold encodeFlacWithLevel
    rw [if_neg (by rw [hlen]; omega), if_neg (by omega)]
  rw [hlen] at hok
  have hsig : writeBytes BitWriter.new [0x66, 0x4C, 0x61, 0x43] =
      ⟨[0x66, 0x4C, 0x61, 0x43], 0, 0⟩ := rfl
  rw [hsig] at hok
  obtain ⟨t, ht⟩ := getBytes_encodeFrames_prefix (samples.length + 1)
    (writeStreaminfo ⟨[0x66, 0x4C, 0x61, 0x43], 0, 0⟩
      (chosenBlockSize level (samples.length / channels) % 2 ^ 16)
      (chosenBlockSize level (samples.length / channels) % 2 ^ 16)
      0 0 sampleRate channels 16 (samples.length / channels)
      (computeMd5 (samples.map flacF32ToI16)))
    (samples.map flacF32ToI16) channels sampleRate 16 0
    (chosenBlockSize level (samples.length / channels)) level
  rw [ht] at hok
  rw [writeStreaminfo_bytes] at hok
  dsimp only at hok
  refine ⟨_, hok, ?_⟩
  rw [computeMd5_map_mod]
  have hmdlen := computeMd5_length (samples.map flacF32ToI16)
  have hcbs := chosenBlockSize_le level (samples.length / channels)
  generalize computeMd5 (samples.map flacF32ToI16) = M at hmdlen ⊢
  generalize chosenBlockSize level (samples.length / channels) = cbs
    at hcbs ⊢
  generalize samples.length / channels = tot at hspc htot ⊢
  simp only [List.cons_append, List.nil_append, List.append_assoc]
  refine ⟨?_, ?_, ?_, ?_, ?_, ?_, ?_, ?_, ?_⟩
  · simp
  · simp
  · simp only [List.drop_succ_cons, List.drop_zero]
    simp [List.cons.injEq]
    omega
  · simp
  · simp [List.getD]
    omega
  · simp [List.getD]
    omega
  · simp [List.getD]
    omega
  · simp [List.getD]
    omega
  · simp only [List.drop_succ_cons, List.drop_zero]
    rw [← hmdlen, List.take_left]

/-- Witness for C3: a mono track of sixteen zero samples at 44.1 kHz,
    level 0. -/
theorem c3_magic_streaminfo_witness :
    ∃ out, encodeFlacWithLevel (List.replicate 16 (0 : ℚ)) 44100 1 0 =
        Except.ok out ∧
      out.take 4 = [0x66, 0x4C, 0x61, 0x43] ∧
      out.getD 18 0 * 4096 + out.getD 19 0 * 16 + out.getD 20 0 / 16 =
        44100 ∧
      (out.drop 26).take 16 =
        computeMd5 ((List.replicate 16 (0 : ℚ)).map flacF32ToI16) := by
  obtain ⟨out, h1, h2, _, _, _, h6, _, _, _, h10⟩ :=
    c3_magic_streaminfo (List.replicate 16 (0 : ℚ)) 44100 1 0
      (by decide) (by decide) (by decide) (by decide) (by decide) (by decide)
  exact ⟨out, h1, h2, h6, h10⟩

end Soundly
